import Mathlib

/-!
# 98tombr: PC-98 partition table to MBR conversion

A shallow embedding of `98tombr.c`.

Conventions of the embedding:

* machine integers are natural numbers; a store into a field of width `w`
  reduces modulo `2 ^ w`;
* the host is little-endian (the program reads the little-endian on-disk
  records straight into its structs, so it only works on such a host);
* a stream (`FILE`) is the byte contents of the image together with the file
  position; the outcome of each `fwrite` is given by the environment as the
  number of bytes the device accepts for that call;
* `parts[i]` is the 32-byte object at `parts + 32 * i`; the allocation holds
  `PC98_MAX_PARTS` such objects and the indices from there on are the memory
  behind it;
* standard output is a list of events;
* a loop with a bound of its own runs for at most that many iterations; a
  loop without one takes the number of iterations allowed and gives `none`
  when they do not bring it to its end.
-/

namespace Tombr

/-! ## Constants -/

def MBR_BOOTABLE : Nat := 0x80
def MBR_HCSECT_CYL : Nat := 0xC0
def MBR_HCSECT_SEC : Nat := 0x3F
def MBR_MAX_PARTS : Nat := 4

def PC98_MID_BOOTABLE : Nat := 0x80
def PC98_MID_MASK : Nat := 0x7f
def PC98_SID_ACTIVE : Nat := 0x80
def PC98_SID_MASK : Nat := 0x7f
def PC98_SYSS_FAT12 : Nat := 0x01
def PC98_SYSS_PCUX : Nat := 0x04
def PC98_SYSS_N88 : Nat := 0x06
def PC98_SYSS_FAT16A : Nat := 0x11
def PC98_SYSS_FAT16B : Nat := 0x21
def PC98_SYSS_NTFS : Nat := 0x31
def PC98_SYSS_BSD : Nat := 0x44
def PC98_SYSS_FAT32 : Nat := 0x61
def PC98_SYSS_LINUX : Nat := 0x62
def PC98_MAX_PARTS : Nat := 17

/-! ## Records -/

/-- The `struct mbrpart` of the source: 8 one-byte fields and two `uint32_t`. -/
structure mbrpart where
  flags : Nat
  shd : Nat
  shcsect : Nat
  scyl : Nat
  type : Nat
  ehd : Nat
  ehcsect : Nat
  ecyl : Nat
  lbastart : Nat
  lbasize : Nat
deriving DecidableEq, Repr

/-- The `struct pc98part` of the source; `name` is the 16-byte array. -/
structure pc98part where
  mid : Nat
  sid : Nat
  dum1 : Nat
  dum2 : Nat
  ipl_sct : Nat
  ipl_head : Nat
  ipl_cyl : Nat
  ssect : Nat
  shd : Nat
  scyl : Nat
  esect : Nat
  ehd : Nat
  ecyl : Nat
  name : List Nat
deriving DecidableEq, Repr

/-- One event on standard output. The two `print_info_*` routines are kept as
events carrying their arguments; their formatting is not modelled. -/
inductive Output where
  | text (s : String)
  | info_pc98 (p : pc98part) (i : Nat)
  | info_mbr (p : mbrpart) (i : Nat)
deriving DecidableEq, Repr

/-! ## Byte layout (little-endian host, no padding) -/

def le16 (v : Nat) : List Nat := [v % 256, v / 256 % 256]

def le32 (v : Nat) : List Nat :=
  [v % 256, v / 256 % 256, v / 65536 % 256, v / 16777216 % 256]

def rd8 (b : List Nat) (o : Nat) : Nat := b.getD o 0

def rd16 (b : List Nat) (o : Nat) : Nat := b.getD o 0 + 256 * b.getD (o + 1) 0

def rd32 (b : List Nat) (o : Nat) : Nat :=
  b.getD o 0 + 256 * b.getD (o + 1) 0 + 65536 * b.getD (o + 2) 0
    + 16777216 * b.getD (o + 3) 0

/-- The 16 bytes of a `struct mbrpart` in memory: `sizeof(mbrpart)` is 16. -/
def encode_mbr (p : mbrpart) : List Nat :=
  [p.flags % 256, p.shd % 256, p.shcsect % 256, p.scyl % 256,
   p.type % 256, p.ehd % 256, p.ehcsect % 256, p.ecyl % 256]
    ++ le32 p.lbastart ++ le32 p.lbasize

/-- The `struct mbrpart` held by 16 bytes of memory. -/
def decode_mbr (b : List Nat) : mbrpart :=
  { flags := rd8 b 0, shd := rd8 b 1, shcsect := rd8 b 2, scyl := rd8 b 3,
    type := rd8 b 4, ehd := rd8 b 5, ehcsect := rd8 b 6, ecyl := rd8 b 7,
    lbastart := rd32 b 8, lbasize := rd32 b 12 }

/-- The 32 bytes of a `struct pc98part` in memory: `sizeof(pc98part)` is 32. -/
def encode_pc98 (p : pc98part) : List Nat :=
  [p.mid % 256, p.sid % 256, p.dum1 % 256, p.dum2 % 256,
   p.ipl_sct % 256, p.ipl_head % 256] ++ le16 p.ipl_cyl
    ++ [p.ssect % 256, p.shd % 256] ++ le16 p.scyl
    ++ [p.esect % 256, p.ehd % 256] ++ le16 p.ecyl
    ++ (List.range 16).map (fun j => p.name.getD j 0 % 256)

/-- The `struct pc98part` held by 32 bytes of memory. -/
def decode_pc98 (b : List Nat) : pc98part :=
  { mid := rd8 b 0, sid := rd8 b 1, dum1 := rd8 b 2, dum2 := rd8 b 3,
    ipl_sct := rd8 b 4, ipl_head := rd8 b 5, ipl_cyl := rd16 b 6,
    ssect := rd8 b 8, shd := rd8 b 9, scyl := rd16 b 10,
    esect := rd8 b 12, ehd := rd8 b 13, ecyl := rd16 b 14,
    name := (List.range 16).map (fun j => rd8 b (16 + j)) }

/-! ## Type mapper -/

/-- The `wildguess` of the source: the returned type byte and what it prints. -/
def wildguess (type : Nat) : Nat × List Output :=
  if type = PC98_SYSS_PCUX ∨ type = PC98_SYSS_N88 then
    (0x00, [Output.text "This partition format has no equivalent in MBR. Marked as free (0x00).\n"])
  else if type = PC98_SYSS_FAT12 then (0x01, [])
  else if type = PC98_SYSS_FAT16A then (0x04, [])
  else if type = PC98_SYSS_FAT16B then (0x0C, [])
  else if type = PC98_SYSS_NTFS then (0x07, [])
  else if type = PC98_SYSS_BSD then (0x00, [])
  else if type = PC98_SYSS_FAT32 then (0x0C, [])
  else if type = PC98_SYSS_LINUX then (0x83, [])
  else
    (0x00, [Output.text "This partition has a unknown identifier. Marked as free (0x00).\n"])

/-! ## Streams -/

/-- An open stream: the bytes of the image and the file position. -/
structure FILE where
  data : List Nat
  pos : Nat
deriving DecidableEq, Repr

/-- The call `fseek(drive, off, SEEK_SET)`. -/
def fseek (drive : FILE) (off : Nat) : FILE := { drive with pos := off }

/-- The call `fread(ptr, size, 1, drive)`, where `buf` holds the bytes of the
object at `ptr` before the call. It gives the number of items read (1 or 0),
the bytes of the object after the call and the stream after the call. A short
read transfers the bytes that are left and leaves the rest of the object as it
was. -/
def fread (buf : List Nat) (size : Nat) (drive : FILE) : Nat × List Nat × FILE :=
  let got := (drive.data.drop drive.pos).take size
  (if got.length = size then 1 else 0,
   got ++ buf.drop got.length,
   { drive with pos := drive.pos + got.length })

/-- The image after `src` is put at offset `pos`; a gap between the end of the
image and `pos` is filled with zero bytes. -/
def pwrite (data : List Nat) (pos : Nat) (src : List Nat) : List Nat :=
  if src = [] then data
  else data.take pos ++ List.replicate (pos - data.length) 0 ++ src
    ++ data.drop (pos + src.length)

/-- The call `fwrite(ptr, size, 1, drive)` where `src` holds the `size` bytes
at `ptr` and the device accepts `accepted` bytes on this call. It gives the
number of items written (1 or 0) and the stream after the call. -/
def fwrite (src : List Nat) (accepted : Nat) (drive : FILE) : Nat × FILE :=
  let put := src.take accepted
  (if put.length = src.length then 1 else 0,
   { data := pwrite drive.data drive.pos put, pos := drive.pos + put.length })

/-- One `fwrite` call: the file position it was made at, the bytes it was asked
to write and the item count it returned. -/
structure WriteEvent where
  pos : Nat
  src : List Nat
  r : Nat
deriving DecidableEq, Repr

/-! ## Table reader -/

/-- The state of `get_pc98_parts`: the memory addressed through `parts`, the
stream, and for each `fread` call the index `i` of its target `&parts[i]`
together with the item count it returned (which the source discards). -/
structure PartsState where
  parts : Nat → pc98part
  drive : FILE
  reads : List (Nat × Nat)

/-- The call `fread(&parts[i], sizeof(pc98part), 1, drive)`. -/
def fread_part (i : Nat) (s : PartsState) : PartsState :=
  let res := fread (encode_pc98 (s.parts i)) 32 s.drive
  { parts := fun j => if j = i then decode_pc98 res.2.1 else s.parts j,
    drive := res.2.2,
    reads := s.reads ++ [(i, res.1)] }

/-- The loop `while(i < PC98_MAX_PARTS && parts[i].scyl != 0)fread(&parts[++i],...)`.
The first argument bounds the number of iterations. -/
def get_pc98_parts_loop : Nat → Nat → PartsState → PartsState
  | 0, _, s => s
  | fuel + 1, i, s =>
    if i < PC98_MAX_PARTS ∧ (s.parts i).scyl ≠ 0 then
      get_pc98_parts_loop fuel (i + 1) (fread_part (i + 1) s)
    else s

/-- The `get_pc98_parts` of the source. `heap` is the content of the memory
that `malloc` returns (and of the memory behind it) before the call. The loop
makes at most `PC98_MAX_PARTS` iterations, `i` growing from 0 while below it.
The allocation holds the entries 0 to 16: a read into `parts[17]` is a store
behind it, which `reads` records and after which the source defines nothing
for the rest of the run. -/
def get_pc98_parts (heap : Nat → pc98part) (drive : FILE) : PartsState :=
  get_pc98_parts_loop PC98_MAX_PARTS 0
    (fread_part 0 { parts := heap, drive := fseek drive 0x200, reads := [] })

/-! ## Table builder -/

/-- One slot of the table after `memset(mparts,0,...)`. -/
def mbrpart_zero : mbrpart :=
  { flags := 0, shd := 0, shcsect := 0, scyl := 0, type := 0, ehd := 0,
    ehcsect := 0, ecyl := 0, lbastart := 0, lbasize := 0 }

/-- The value stored by `mparts[i].lbastart = parts[i].scyl * 136`: the product
is computed in `int` and converted to `uint32_t`. -/
def lbastart_of (p : pc98part) : Nat :=
  Int.toNat (((p.scyl : Int) * 136) % 4294967296)

/-- The value stored by `mparts[i].lbasize = ((parts[i].ecyl - parts[i].scyl)+1) * 136`:
the operands are promoted to `int` and the result is converted to `uint32_t`. -/
def lbasize_of (p : pc98part) : Nat :=
  Int.toNat (((((p.ecyl : Int) - (p.scyl : Int)) + 1) * 136) % 4294967296)

/-- The body of the loop of `get_mbr_suggestion` for index `i`. -/
def get_mbr_suggestion_body (parts : Nat → pc98part) (i : Nat)
    (s : List mbrpart × List Output) : List mbrpart × List Output :=
  let g := wildguess ((parts i).sid &&& PC98_SID_MASK)
  (s.1.set i
    { flags := 0x00,
      shd := 0xFE, shcsect := 0xFF, scyl := 0xFF,
      ehd := 0xFE, ehcsect := 0xFF, ecyl := 0xFF,
      lbastart := lbastart_of (parts i),
      lbasize := lbasize_of (parts i),
      type := g.1 },
   s.2 ++ g.2)

/-- The loop `for(int i = 0; i < MBR_MAX_PARTS && parts[i].scyl != 0; i++)`.
The first argument bounds the number of iterations. -/
def get_mbr_suggestion_loop (parts : Nat → pc98part) :
    Nat → Nat → List mbrpart × List Output → List mbrpart × List Output
  | 0, _, s => s
  | fuel + 1, i, s =>
    if i < MBR_MAX_PARTS ∧ (parts i).scyl ≠ 0 then
      get_mbr_suggestion_loop parts fuel (i + 1) (get_mbr_suggestion_body parts i s)
    else s

/-- The `get_mbr_suggestion` of the source: the table it returns and what it
prints. The loop makes at most `MBR_MAX_PARTS` iterations. -/
def get_mbr_suggestion (parts : Nat → pc98part) : List mbrpart × List Output :=
  get_mbr_suggestion_loop parts MBR_MAX_PARTS 0
    (List.replicate MBR_MAX_PARTS mbrpart_zero, [])

/-! ## Table writer -/

/-- The loop `for(i = 0; i < MBR_MAX_PARTS && mparts[i].type != 0; i++)print_info_mbr(mparts[i],i+1)`. -/
def print_mbr_loop (mparts : List mbrpart) : Nat → Nat → List Output → List Output
  | 0, _, out => out
  | fuel + 1, i, out =>
    if i < MBR_MAX_PARTS ∧ (mparts.getD i mbrpart_zero).type ≠ 0 then
      print_mbr_loop mparts fuel (i + 1)
        (out ++ [Output.info_mbr (mparts.getD i mbrpart_zero) (i + 1)])
    else out

/-- The state of the writing part of `write_mbr`: the stream and the `fwrite`
calls made so far. -/
structure WriteState where
  drive : FILE
  writes : List WriteEvent
deriving DecidableEq, Repr

/-- One `fwrite(ptr, size, 1, drive)` of the bytes `src` in state `s`; the
device decides from the number of calls made before. -/
def fwrite_logged (dev : Nat → Nat) (src : List Nat) (s : WriteState) : Nat × WriteState :=
  let res := fwrite src (dev s.writes.length) s.drive
  (res.1, { drive := res.2, writes := s.writes ++ [{ pos := s.drive.pos, src := src, r := res.1 }] })

/-- The partition-writing loop of `write_mbr`. The result is `false` with the
state at the failing write when an `fwrite` did not return 1 (the branch that
returns 2), and `true` with the state after the loop otherwise. -/
def write_mbr_loop (dev : Nat → Nat) (mparts : List mbrpart) :
    Nat → Nat → WriteState → Bool × WriteState
  | 0, _, s => (true, s)
  | fuel + 1, i, s =>
    if i < MBR_MAX_PARTS ∧ (mparts.getD i mbrpart_zero).type ≠ 0 then
      let res := fwrite_logged dev (encode_mbr (mparts.getD i mbrpart_zero)) s
      if res.1 ≠ 1 then (false, res.2)
      else write_mbr_loop dev mparts fuel (i + 1) res.2
    else (true, s)

/-- What a run of `write_mbr` leaves: the exit code, the stream, the `fwrite`
calls and the output. -/
structure WriteResult where
  ret : Nat
  drive : FILE
  writes : List WriteEvent
  stdout : List Output
deriving DecidableEq, Repr

/-- The part of `write_mbr` from `fopen(file,"r+b")` on, for the table `mparts`. -/
def write_mbr_table (dev : Nat → Nat) (mparts : List mbrpart) (image : List Nat)
    (out : List Output) : WriteResult :=
  let s0 : WriteState := { drive := fseek { data := image, pos := 0 } 0x1BE, writes := [] }
  let l := write_mbr_loop dev mparts MBR_MAX_PARTS 0 s0
  if l.1 = false then
    { ret := 2, drive := l.2.drive, writes := l.2.writes,
      stdout := out ++ [Output.text "Failed to write partition\n"] }
  else
    let s1 : WriteState := { drive := fseek l.2.drive 0x1FE, writes := l.2.writes }
    let sig := fwrite_logged dev (le16 0x55AA) s1
    if sig.1 ≠ 1 then
      { ret := 3, drive := sig.2.drive, writes := sig.2.writes,
        stdout := out ++ [Output.text "Failed to write MBR signature\n"] }
    else
      { ret := 0, drive := sig.2.drive, writes := sig.2.writes,
        stdout := out ++ [Output.text "Successfully written.\n"] }

/-- The `write_mbr` of the source, run on the image `image` of the named file.
`heap` is the memory `get_pc98_parts` allocates in, `dev` the number of bytes
the device accepts on each `fwrite` call. -/
def write_mbr (heap : Nat → pc98part) (dev : Nat → Nat) (image : List Nat) : WriteResult :=
  let parts := (get_pc98_parts heap { data := image, pos := 0 }).parts
  let sug := get_mbr_suggestion parts
  let out := [Output.text "\nSuggested MBR:\n"] ++ sug.2
  let out := print_mbr_loop sug.1 MBR_MAX_PARTS 0 out
  write_mbr_table dev sug.1 image out

/-! ## Table display -/

/-- The loop `for(i = 0; parts[i].scyl != 0; i++)print_info_pc98(parts[i],i+1)`
of `read_ptable`, which has no bound of its own: `none` when the iterations
allowed by the first argument do not reach an entry with start cylinder zero,
else the final `i` and the output. -/
def read_ptable_pc98_loop (parts : Nat → pc98part) :
    Nat → Nat → List Output → Option (Nat × List Output)
  | 0, _, _ => none
  | fuel + 1, i, out =>
    if (parts i).scyl ≠ 0 then
      read_ptable_pc98_loop parts fuel (i + 1)
        (out ++ [Output.info_pc98 (parts i) (i + 1)])
    else some (i, out)

/-- The state of the second loop of `read_ptable`: the local `mp`, the counter
`i`, the stream, the output, and for each `fread(&mp,...)` made so far the file
position it was made at with the item count it returned (which the source
discards). -/
structure ScanState where
  mp : mbrpart
  i : Nat
  drive : FILE
  stdout : List Output
  scans : List (Nat × Nat)
deriving DecidableEq, Repr

/-- The call `fread(&mp,sizeof(mbrpart),1,drive)`. -/
def fread_mbr (s : ScanState) : ScanState :=
  let res := fread (encode_mbr s.mp) 16 s.drive
  { mp := decode_mbr res.2.1, i := s.i, drive := res.2.2, stdout := s.stdout,
    scans := s.scans ++ [(s.drive.pos, res.1)] }

/-- The body `print_info_mbr(mp,i); fread(&mp,...); i++;` of the second loop of
`read_ptable`. -/
def read_ptable_mbr_body (s : ScanState) : ScanState :=
  { mp := (fread_mbr s).mp, i := s.i + 1, drive := (fread_mbr s).drive,
    stdout := s.stdout ++ [Output.info_mbr s.mp s.i],
    scans := (fread_mbr s).scans }

/-- The loop `while(mp.type != 0){print_info_mbr(mp,i); fread(&mp,...); i++;}` of
`read_ptable`, which has no bound of its own: `none` when the iterations allowed
by the first argument do not reach an `mp` of type zero. -/
def read_ptable_mbr_loop : Nat → ScanState → Option ScanState
  | 0, _ => none
  | fuel + 1, s =>
    if s.mp.type ≠ 0 then read_ptable_mbr_loop fuel (read_ptable_mbr_body s)
    else some s

/-- The `read_ptable` of the source on the image of the named file: the exit
code and the final state of its second loop, or `none` when one of its two
loops does not end within `fuel` iterations. `heap` is the memory that
`get_pc98_parts` allocates in and `mp0` the content of the local `mp` before
the first read. -/
def read_ptable (heap : Nat → pc98part) (mp0 : mbrpart) (image : List Nat) (fuel : Nat) :
    Option (Nat × ScanState) :=
  let ps := get_pc98_parts heap { data := image, pos := 0 }
  match read_ptable_pc98_loop ps.parts fuel 0 [] with
  | none => none
  | some w =>
    let out := if w.1 = 0 then w.2 ++ [Output.text "No PC-98 partition table.\n"] else w.2
    let out := out ++ [Output.text "\nCorresponding MBR on disk:\n"]
    match read_ptable_mbr_loop fuel
        (fread_mbr { mp := mp0, i := 1, drive := fseek ps.drive 0x1BE, stdout := out,
                     scans := [] }) with
    | none => none
    | some s => some (0, s)

/-- The `suggest_mbr` of the source: the exit code and the output. -/
def suggest_mbr (heap : Nat → pc98part) (image : List Nat) : Nat × List Output :=
  let parts := (get_pc98_parts heap { data := image, pos := 0 }).parts
  let sug := get_mbr_suggestion parts
  let out := [Output.text "\nSuggested MBR:\n"] ++ sug.2
  (0, print_mbr_loop sug.1 MBR_MAX_PARTS 0 out)

/-! ## Command line -/

/-- The `print_help` of the source: the value it returns and what it prints. -/
def print_help (name : String) : Nat × List Output :=
  (1,
   [Output.text "Shows PC-98 partition tables and writes an MBR equivalent for use on modern systems.\n",
    Output.text "Usage:\n",
    Output.text (name ++ " -h : Show this\n\n"),
    Output.text (name ++ " -r or \n" ++ name ++ " -read : Reads and displays the PC-98 partition table of the image/block device, and shows the corresponding MBR data already written.\n\n"),
    Output.text (name ++ " -s or \n" ++ name ++ " -suggest: Suggest a MBR\n\n"),
    Output.text (name ++ " -w file or \n" ++ name ++ " -write file or \n" ++ name ++ " -wreck file : WRITES the suggested MBR to the image/block device. Make sure to select the correct file !\n\n")])

/-- The character `s[k]` of a C string: the terminating zero at its end. -/
def char_at (s : String) (k : Nat) : Char := s.toList.getD k (Char.ofNat 0)

/-- The `main` of the source (C99: control that reaches the closing brace of
`main` returns 0). `argv` holds the `argc` arguments, `disk` gives the image of
each file name; the other arguments are those of the modes. The result is the
exit code and the output, or `none` when `read_ptable` does not end within
`fuel` iterations. -/
def main (heap : Nat → pc98part) (mp0 : mbrpart) (dev : Nat → Nat) (disk : String → List Nat)
    (fuel : Nat) (argv : List String) : Option (Nat × List Output) :=
  if argv.length < 3 ∨ char_at (argv.getD 1 "") 0 ≠ '-' then
    some (print_help (argv.getD 0 ""))
  else if char_at (argv.getD 1 "") 1 = 'h' then
    some (print_help (argv.getD 0 ""))
  else if char_at (argv.getD 1 "") 1 = 'r' then
    (read_ptable heap mp0 (disk (argv.getD 2 "")) fuel).map (fun r => (r.1, r.2.stdout))
  else if char_at (argv.getD 1 "") 1 = 's' then
    some (suggest_mbr heap (disk (argv.getD 2 "")))
  else if char_at (argv.getD 1 "") 1 = 'w' then
    some ((write_mbr heap dev (disk (argv.getD 2 ""))).ret,
          (write_mbr heap dev (disk (argv.getD 2 ""))).stdout)
  else some (0, [])

/-! ## Value ranges of the field types -/

/-- A `struct mbrpart` value: eight `uint8_t` fields and two `uint32_t` fields. -/
@[reducible] def mbrpart_ok (p : mbrpart) : Prop :=
  p.flags < 256 ∧ p.shd < 256 ∧ p.shcsect < 256 ∧ p.scyl < 256 ∧ p.type < 256
    ∧ p.ehd < 256 ∧ p.ehcsect < 256 ∧ p.ecyl < 256
    ∧ p.lbastart < 4294967296 ∧ p.lbasize < 4294967296

/-- A `struct pc98part` value: `uint8_t` fields, three `uint16_t` cylinder
fields and 16 `uint8_t` of name. -/
@[reducible] def pc98part_ok (p : pc98part) : Prop :=
  p.mid < 256 ∧ p.sid < 256 ∧ p.dum1 < 256 ∧ p.dum2 < 256 ∧ p.ipl_sct < 256
    ∧ p.ipl_head < 256 ∧ p.ipl_cyl < 65536 ∧ p.ssect < 256 ∧ p.shd < 256
    ∧ p.scyl < 65536 ∧ p.esect < 256 ∧ p.ehd < 256 ∧ p.ecyl < 65536
    ∧ p.name.length = 16 ∧ ∀ x, x ∈ p.name → x < 256

/-! ## Concrete inputs -/

/-- A PC-98 entry that is zero except for the system-id and the two cylinder
bounds. -/
def pc98_entry (sid scyl ecyl : Nat) : pc98part :=
  { mid := 0, sid := sid, dum1 := 0, dum2 := 0, ipl_sct := 0, ipl_head := 0,
    ipl_cyl := 0, ssect := 0, shd := 0, scyl := scyl, esect := 0, ehd := 0,
    ecyl := ecyl, name := List.replicate 16 0 }

/-- A table whose first entry ends (cylinder 0) before it starts (cylinder 5). -/
def parts_backwards : Nat → pc98part :=
  fun j => if j = 0 then pc98_entry 0x11 5 0 else pc98_entry 0 0 0

/-- A table whose first entry spans the cylinders 10 to 19. -/
def parts_ten_cyl : Nat → pc98part :=
  fun j => if j = 0 then pc98_entry 0x21 10 19 else pc98_entry 0 0 0

/-- A table with 10 entries of non-zero start cylinder: entry `j` is a FAT16
partition on the cylinders `10 * j + 1` to `10 * j + 10`. -/
def parts_ten_entries : Nat → pc98part :=
  fun j => if j < 10 then pc98_entry 0x91 (10 * j + 1) (10 * j + 10) else pc98_entry 0 0 0

/-- The 32 bytes of record `j` of the PC-98 table of an image, which starts at
offset 0x200. -/
def pc98_record (image : List Nat) (j : Nat) : List Nat :=
  (image.drop (0x200 + 32 * j)).take 32

/-- An image with three PC-98 entries of non-zero start cylinder followed by an
all-zero record. -/
def image_three : List Nat :=
  List.replicate 0x200 0 ++ encode_pc98 (pc98_entry 0x91 1 100)
    ++ encode_pc98 (pc98_entry 0xA1 101 300) ++ encode_pc98 (pc98_entry 0xE2 301 900)
    ++ List.replicate 32 0

/-- Memory whose every byte is zero. -/
def heap_zero : Nat → pc98part := fun _ => pc98_entry 0 0 0

/-- An image with 18 consecutive PC-98 records of non-zero start cylinder at
0x200, followed by an all-zero record. -/
def image_eighteen : List Nat :=
  List.replicate 0x200 0
    ++ ((List.range 18).map
        (fun j => encode_pc98 (pc98_entry 0x91 (10 * j + 1) (10 * j + 10)))).flatten
    ++ List.replicate 32 0

/-- An image with one PC-98 entry (FAT16, cylinders 1 to 100) followed by an
all-zero record. -/
def image_one : List Nat :=
  List.replicate 0x200 0 ++ encode_pc98 (pc98_entry 0x91 1 100) ++ List.replicate 32 0

/-- A device that accepts every write in full. -/
def dev_accept : Nat → Nat := fun _ => 16

/-- A legacy entry of the given type, start and size. -/
def mbr_entry (type lbastart lbasize : Nat) : mbrpart :=
  { flags := 0x00, shd := 0xFE, shcsect := 0xFF, scyl := 0xFF, type := type,
    ehd := 0xFE, ehcsect := 0xFF, ecyl := 0xFF, lbastart := lbastart, lbasize := lbasize }

/-- A legacy table with two entries of non-zero type, then a slot of type zero,
then another entry of non-zero type. -/
def mparts_gap : List mbrpart :=
  [mbr_entry 0x04 136 1360, mbr_entry 0x0C 1496 2720, mbrpart_zero, mbr_entry 0x83 4216 1360]

/-- An argument vector with three arguments whose mode letter is `x`. -/
def argv_unknown : List String := ["98tombr", "-x", "disk.img"]

/-- A table of four entries with flag bits, heads, sectors, IPL fields and
names set, and a fifth entry. -/
def parts_dressed : Nat → pc98part :=
  fun j =>
    if j < 4 then
      { mid := 0xA0, sid := 0x91 + j, dum1 := 7, dum2 := 9, ipl_sct := 1, ipl_head := 2,
        ipl_cyl := 10 * j + 1, ssect := 3, shd := 4, scyl := 10 * j + 1, esect := 16,
        ehd := 7, ecyl := 10 * j + 10, name := List.replicate 16 0x41 }
    else if j = 4 then pc98_entry 0x62 41 50
    else pc98_entry 0 0 0

/-- The table `parts_dressed` with everything but the cylinder bounds and the
low 7 bits of the system-id cleared, and without the fifth entry. -/
def parts_plain : Nat → pc98part :=
  fun j => if j < 4 then pc98_entry (0x11 + j) (10 * j + 1) (10 * j + 10) else pc98_entry 0 0 0

/-- A pattern of 32 bytes. -/
def bytes32_sample : List Nat := (List.range 32).map (fun i => 7 * i + 3)

/-- A pattern of 16 bytes. -/
def bytes16_sample : List Nat := (List.range 16).map (fun i => 15 * i + 1)

/-- An image of 0x200 zero bytes: it ends where the PC-98 table would start. -/
def image_short : List Nat := List.replicate 0x200 0

/-- The four legacy entries of a full table, as they lie at 0x1BE. -/
def legacy_four : List Nat :=
  encode_mbr (mbr_entry 0x04 136 1360) ++ encode_mbr (mbr_entry 0x0C 1496 2720)
    ++ encode_mbr (mbr_entry 0x83 4216 1360) ++ encode_mbr (mbr_entry 0x07 5576 1360)

/-- An image with four legacy entries of non-zero type at 0x1BE, the signature
bytes 0x55, 0xAA at 0x1FE, and at 0x200 one PC-98 entry followed by an all-zero
record. -/
def image_full_mbr : List Nat :=
  List.replicate 0x1BE 0 ++ legacy_four ++ [0x55, 0xAA]
    ++ encode_pc98 (pc98_entry 0x91 1 100) ++ List.replicate 32 0

/-- An image of one sector (0x200 bytes) with four legacy entries of non-zero
type at 0x1BE and the signature bytes 0x55, 0xAA at 0x1FE. -/
def image_sector : List Nat :=
  List.replicate 0x1BE 0 ++ legacy_four ++ [0x55, 0xAA]

/-- An image whose PC-98 table holds a FAT16 entry, a PC-UX entry and a FAT32
entry, followed by an all-zero record. -/
def image_mixed : List Nat :=
  List.replicate 0x200 0 ++ encode_pc98 (pc98_entry 0x91 1 100)
    ++ encode_pc98 (pc98_entry 0x84 101 200) ++ encode_pc98 (pc98_entry 0xE1 201 300)
    ++ List.replicate 32 0

/-! ## Type mapper: theorems -/

/-- C2: `wildguess` maps FAT12 (0x01) to 0x01, FAT16 variant A (0x11) to 0x04,
FAT16 variant B (0x21) to 0x0C, NTFS-family (0x31) to 0x07, FAT32 (0x61) to
0x0C and Linux native (0x62) to 0x83. -/
theorem wildguess_mapping :
    (wildguess 0x01).1 = 0x01 ∧ (wildguess 0x11).1 = 0x04 ∧ (wildguess 0x21).1 = 0x0C
      ∧ (wildguess 0x31).1 = 0x07 ∧ (wildguess 0x61).1 = 0x0C
      ∧ (wildguess 0x62).1 = 0x83 := by
  decide

/-- C3: for every 7-bit code `wildguess` returns a byte, and the byte is 0x00
exactly when the code is none of 0x01, 0x11, 0x21, 0x31, 0x61, 0x62; PC-UX
(0x04), N88-BASIC (0x06) and BSD (0x44) give 0x00. -/
theorem wildguess_total_free (t : Nat) (ht : t < 128) :
    (wildguess t).1 < 256
      ∧ ((wildguess t).1 = 0x00 ↔ t ∉ [0x01, 0x11, 0x21, 0x31, 0x61, 0x62])
      ∧ (wildguess 0x04).1 = 0x00 ∧ (wildguess 0x06).1 = 0x00
      ∧ (wildguess 0x44).1 = 0x00 := by
  revert t
  decide

theorem wildguess_total_free_witness :
    (wildguess 0x44).1 < 256
      ∧ ((wildguess 0x44).1 = 0x00 ↔ 0x44 ∉ [0x01, 0x11, 0x21, 0x31, 0x61, 0x62])
      ∧ (wildguess 0x04).1 = 0x00 ∧ (wildguess 0x06).1 = 0x00
      ∧ (wildguess 0x44).1 = 0x00 :=
  wildguess_total_free 0x44 (by decide)

/-! ## Table builder: theorems -/

/-- The entry that one iteration of the loop of `get_mbr_suggestion` leaves in
slot `i`. -/
theorem get_mbr_suggestion_body_fst (parts : Nat → pc98part) (i : Nat)
    (s : List mbrpart × List Output) :
    (get_mbr_suggestion_body parts i s).1 = s.1.set i
      { flags := 0x00, shd := 0xFE, shcsect := 0xFF, scyl := 0xFF,
        ehd := 0xFE, ehcsect := 0xFF, ecyl := 0xFF,
        lbastart := lbastart_of (parts i), lbasize := lbasize_of (parts i),
        type := (wildguess ((parts i).sid &&& PC98_SID_MASK)).1 } := rfl

/-- More iterations than `MBR_MAX_PARTS - i` change nothing: the bound on the
iterations of the loop of `get_mbr_suggestion` never cuts it short. -/
theorem get_mbr_suggestion_loop_fuel (parts : Nat → pc98part) :
    ∀ (fuel i : Nat) (s : List mbrpart × List Output), MBR_MAX_PARTS - i ≤ fuel →
      get_mbr_suggestion_loop parts fuel i s
        = get_mbr_suggestion_loop parts (MBR_MAX_PARTS - i) i s := by
  intro fuel
  induction fuel with
  | zero =>
    intro i s h
    have h0 : MBR_MAX_PARTS - i = 0 := by omega
    rw [h0]
  | succ fuel ih =>
    intro i s h
    by_cases hi : i < MBR_MAX_PARTS
    · obtain ⟨m, hm⟩ : ∃ m, MBR_MAX_PARTS - i = m + 1 := ⟨MBR_MAX_PARTS - i - 1, by omega⟩
      rw [hm]
      simp only [get_mbr_suggestion_loop]
      split
      · have h1 : MBR_MAX_PARTS - (i + 1) = m := by omega
        rw [ih (i + 1) _ (by omega), h1]
      · rfl
    · have h0 : MBR_MAX_PARTS - i = 0 := by omega
      rw [h0]
      simp [get_mbr_suggestion_loop, hi]

/-- The table of `get_mbr_suggestion` in closed form, `n` being the number of
entries converted. -/
theorem get_mbr_suggestion_closed (parts : Nat → pc98part) (n : Nat) (hn : n ≤ 4)
    (hnz : ∀ j, j < n → (parts j).scyl ≠ 0) (hz : n < 4 → (parts n).scyl = 0) :
    (get_mbr_suggestion parts).1
      = (List.range n).map (fun i =>
          ({ flags := 0x00, shd := 0xFE, shcsect := 0xFF, scyl := 0xFF,
             ehd := 0xFE, ehcsect := 0xFF, ecyl := 0xFF,
             lbastart := lbastart_of (parts i), lbasize := lbasize_of (parts i),
             type := (wildguess ((parts i).sid &&& PC98_SID_MASK)).1 } : mbrpart))
        ++ List.replicate (4 - n) mbrpart_zero := by
  have h0 := hnz 0
  have h1 := hnz 1
  have h2 := hnz 2
  have h3 := hnz 3
  interval_cases n <;>
    simp_all [get_mbr_suggestion, get_mbr_suggestion_loop, get_mbr_suggestion_body_fst,
      MBR_MAX_PARTS, List.range_succ, List.replicate]

/-- The slot that `get_mbr_suggestion` fills for a converted entry: entry `i`
is converted when `i < 4` and the entries `0..i` have a non-zero start
cylinder. -/
theorem get_mbr_suggestion_slot (parts : Nat → pc98part) (i : Nat) (hi : i < 4)
    (hnz : ∀ j, j ≤ i → (parts j).scyl ≠ 0) :
    (get_mbr_suggestion parts).1.getD i mbrpart_zero
      = { flags := 0x00, shd := 0xFE, shcsect := 0xFF, scyl := 0xFF,
          ehd := 0xFE, ehcsect := 0xFF, ecyl := 0xFF,
          lbastart := lbastart_of (parts i), lbasize := lbasize_of (parts i),
          type := (wildguess ((parts i).sid &&& PC98_SID_MASK)).1 } := by
  have h0 := hnz 0
  have h1 := hnz 1
  have h2 := hnz 2
  have h3 := hnz 3
  interval_cases i <;>
    simp_all [get_mbr_suggestion, get_mbr_suggestion_loop, get_mbr_suggestion_body_fst,
      MBR_MAX_PARTS, List.replicate] <;>
    split_ifs <;> simp [get_mbr_suggestion_body_fst]

/-- The product `scyl * 136` of a 16-bit start cylinder fits the 32-bit field. -/
theorem lbastart_of_eq (p : pc98part) (hs : p.scyl < 65536) :
    lbastart_of p = p.scyl * 136 := by
  unfold lbastart_of
  have h1 : ((p.scyl : Int) * 136) % 4294967296 = (p.scyl : Int) * 136 :=
    Int.emod_eq_of_lt (by omega) (by omega)
  rw [h1]
  omega

/-- The stored `lbasize` is the `int` result reduced modulo `2 ^ 32`. -/
theorem lbasize_of_cast (p : pc98part) :
    ((lbasize_of p : Nat) : Int)
      = ((((p.ecyl : Int) - (p.scyl : Int)) + 1) * 136) % 4294967296 := by
  unfold lbasize_of
  apply Int.toNat_of_nonneg
  apply Int.emod_nonneg
  norm_num

/-- C1 (as amended): for a converted entry with 16-bit cylinder fields,
`lbastart` is `scyl * 136` and `lbasize` is `(ecyl - scyl + 1) * 136` reduced
modulo `2 ^ 32`, which is the integer `(ecyl - scyl + 1) * 136` itself whenever
`scyl ≤ ecyl + 1`. -/
theorem get_mbr_suggestion_lba (parts : Nat → pc98part) (i : Nat) (hi : i < 4)
    (hnz : ∀ j, j ≤ i → (parts j).scyl ≠ 0)
    (hs : (parts i).scyl < 65536) (he : (parts i).ecyl < 65536) :
    ((get_mbr_suggestion parts).1.getD i mbrpart_zero).lbastart = (parts i).scyl * 136
      ∧ (((get_mbr_suggestion parts).1.getD i mbrpart_zero).lbasize : Int)
          = ((((parts i).ecyl : Int) - ((parts i).scyl : Int) + 1) * 136) % 2 ^ 32
      ∧ ((parts i).scyl ≤ (parts i).ecyl + 1 →
          (((get_mbr_suggestion parts).1.getD i mbrpart_zero).lbasize : Int)
            = (((parts i).ecyl : Int) - ((parts i).scyl : Int) + 1) * 136) := by
  rw [get_mbr_suggestion_slot parts i hi hnz]
  have h32 : (2 : Int) ^ 32 = 4294967296 := by norm_num
  rw [h32]
  refine ⟨lbastart_of_eq (parts i) hs, lbasize_of_cast (parts i), ?_⟩
  intro h
  show ((lbasize_of (parts i) : Nat) : Int) = _
  rw [lbasize_of_cast]
  apply Int.emod_eq_of_lt <;> omega

theorem get_mbr_suggestion_lba_witness :
    ((get_mbr_suggestion parts_ten_cyl).1.getD 0 mbrpart_zero).lbastart = 10 * 136
      ∧ (((get_mbr_suggestion parts_ten_cyl).1.getD 0 mbrpart_zero).lbasize : Int)
          = (((19 : Int) - (10 : Int) + 1) * 136) % 2 ^ 32
      ∧ ((10 : Nat) ≤ 19 + 1 →
          (((get_mbr_suggestion parts_ten_cyl).1.getD 0 mbrpart_zero).lbasize : Int)
            = ((19 : Int) - (10 : Int) + 1) * 136) :=
  get_mbr_suggestion_lba parts_ten_cyl 0 (by decide) (by decide) (by decide) (by decide)

/-- C1 (as stated) fails: the first entry of `parts_backwards` is converted
(start cylinder 5, end cylinder 0, both 16-bit values) and its `lbasize` is
4294966752, not the integer `(0 - 5 + 1) * 136 = -544`. -/
theorem get_mbr_suggestion_lba_counterexample :
    (parts_backwards 0).scyl ≠ 0 ∧ (parts_backwards 0).scyl < 65536
      ∧ (parts_backwards 0).ecyl < 65536
      ∧ ((get_mbr_suggestion parts_backwards).1.getD 0 mbrpart_zero).lbasize = 4294966752
      ∧ ¬ ((((get_mbr_suggestion parts_backwards).1.getD 0 mbrpart_zero).lbasize : Int)
            = (((parts_backwards 0).ecyl : Int) - ((parts_backwards 0).scyl : Int) + 1) * 136) := by
  decide

/-- C6: `get_mbr_suggestion` returns exactly 4 slots; with `n` the smaller of 4
and the index of the first entry whose start cylinder is zero, the slots
`0..n-1` are derived from the entries `0..n-1` and every slot from `n` on is
all zero. -/
theorem get_mbr_suggestion_slots (parts : Nat → pc98part) (n : Nat) (hn : n ≤ 4)
    (hnz : ∀ j, j < n → (parts j).scyl ≠ 0) (hz : n < 4 → (parts n).scyl = 0) :
    (get_mbr_suggestion parts).1.length = 4
      ∧ (∀ i, i < n → (get_mbr_suggestion parts).1.getD i mbrpart_zero
          = { flags := 0x00, shd := 0xFE, shcsect := 0xFF, scyl := 0xFF,
              ehd := 0xFE, ehcsect := 0xFF, ecyl := 0xFF,
              lbastart := lbastart_of (parts i), lbasize := lbasize_of (parts i),
              type := (wildguess ((parts i).sid &&& PC98_SID_MASK)).1 })
      ∧ (∀ i, n ≤ i → (get_mbr_suggestion parts).1.getD i mbrpart_zero = mbrpart_zero) := by
  rw [get_mbr_suggestion_closed parts n hn hnz hz]
  refine ⟨by simp; omega, ?_, ?_⟩
  · intro i hi
    rw [List.getD_eq_getElem?_getD, List.getElem?_append_left (by simpa using hi)]
    simp [hi]
  · intro i hi
    rw [List.getD_eq_getElem?_getD, List.getElem?_append_right (by simpa using hi)]
    by_cases h : i - n < 4 - n
    · simp [List.getElem?_replicate, h]
    · simp [List.getElem?_replicate, h]

theorem get_mbr_suggestion_slots_witness :
    (get_mbr_suggestion parts_ten_entries).1.length = 4
      ∧ (∀ i, i < 4 → (get_mbr_suggestion parts_ten_entries).1.getD i mbrpart_zero
          = { flags := 0x00, shd := 0xFE, shcsect := 0xFF, scyl := 0xFF,
              ehd := 0xFE, ehcsect := 0xFF, ecyl := 0xFF,
              lbastart := lbastart_of (parts_ten_entries i),
              lbasize := lbasize_of (parts_ten_entries i),
              type := (wildguess ((parts_ten_entries i).sid &&& PC98_SID_MASK)).1 })
      ∧ (∀ i, 4 ≤ i → (get_mbr_suggestion parts_ten_entries).1.getD i mbrpart_zero
          = mbrpart_zero) :=
  get_mbr_suggestion_slots parts_ten_entries 4 (by decide) (by decide) (by decide)

/-- C7: every entry that `get_mbr_suggestion` populates has flags 0x00, start
head 0xFE, start sector byte 0xFF, start cylinder byte 0xFF, end head 0xFE,
end sector byte 0xFF, end cylinder byte 0xFF and the type that `wildguess`
gives for `sid & 0x7F` of the entry it comes from. -/
theorem get_mbr_suggestion_sentinels (parts : Nat → pc98part) (i : Nat) (hi : i < 4)
    (hnz : ∀ j, j ≤ i → (parts j).scyl ≠ 0) :
    ((get_mbr_suggestion parts).1.getD i mbrpart_zero).flags = 0x00
      ∧ ((get_mbr_suggestion parts).1.getD i mbrpart_zero).shd = 0xFE
      ∧ ((get_mbr_suggestion parts).1.getD i mbrpart_zero).shcsect = 0xFF
      ∧ ((get_mbr_suggestion parts).1.getD i mbrpart_zero).scyl = 0xFF
      ∧ ((get_mbr_suggestion parts).1.getD i mbrpart_zero).ehd = 0xFE
      ∧ ((get_mbr_suggestion parts).1.getD i mbrpart_zero).ehcsect = 0xFF
      ∧ ((get_mbr_suggestion parts).1.getD i mbrpart_zero).ecyl = 0xFF
      ∧ ((get_mbr_suggestion parts).1.getD i mbrpart_zero).type
          = (wildguess ((parts i).sid &&& 0x7F)).1 := by
  rw [get_mbr_suggestion_slot parts i hi hnz]
  simp [PC98_SID_MASK]

theorem get_mbr_suggestion_sentinels_witness :
    ((get_mbr_suggestion parts_ten_entries).1.getD 3 mbrpart_zero).flags = 0x00
      ∧ ((get_mbr_suggestion parts_ten_entries).1.getD 3 mbrpart_zero).shd = 0xFE
      ∧ ((get_mbr_suggestion parts_ten_entries).1.getD 3 mbrpart_zero).shcsect = 0xFF
      ∧ ((get_mbr_suggestion parts_ten_entries).1.getD 3 mbrpart_zero).scyl = 0xFF
      ∧ ((get_mbr_suggestion parts_ten_entries).1.getD 3 mbrpart_zero).ehd = 0xFE
      ∧ ((get_mbr_suggestion parts_ten_entries).1.getD 3 mbrpart_zero).ehcsect = 0xFF
      ∧ ((get_mbr_suggestion parts_ten_entries).1.getD 3 mbrpart_zero).ecyl = 0xFF
      ∧ ((get_mbr_suggestion parts_ten_entries).1.getD 3 mbrpart_zero).type
          = (wildguess ((parts_ten_entries 3).sid &&& 0x7F)).1 :=
  get_mbr_suggestion_sentinels parts_ten_entries 3 (by decide) (by decide)

/-! ## Table reader: theorems -/

theorem encode_pc98_length (p : pc98part) : (encode_pc98 p).length = 32 := by
  simp [encode_pc98, le16]

/-- A read of one item that the image holds in full. -/
theorem fread_full (buf : List Nat) (size : Nat) (drive : FILE)
    (hb : buf.length = size) (hl : drive.pos + size ≤ drive.data.length) :
    fread buf size drive
      = (1, (drive.data.drop drive.pos).take size, { drive with pos := drive.pos + size }) := by
  have hg : ((drive.data.drop drive.pos).take size).length = size := by
    rw [List.length_take, List.length_drop]
    omega
  have hdrop : buf.drop size = [] := List.drop_of_length_le (by omega)
  simp only [fread, hg, if_true, hdrop, List.append_nil]

/-- The call `fread(&parts[i],...)` at the start of record `i`, when the image
holds that record in full. -/
theorem fread_part_full (image : List Nat) (i : Nat) (s : PartsState)
    (hd : s.drive = { data := image, pos := 0x200 + 32 * i })
    (hl : 0x200 + 32 * (i + 1) ≤ image.length) :
    (fread_part i s).drive = { data := image, pos := 0x200 + 32 * (i + 1) }
      ∧ (fread_part i s).reads = s.reads ++ [(i, 1)]
      ∧ (fread_part i s).parts i = decode_pc98 (pc98_record image i)
      ∧ ∀ j, j ≠ i → (fread_part i s).parts j = s.parts j := by
  have hf := fread_full (encode_pc98 (s.parts i)) 32 s.drive (encode_pc98_length _)
    (by rw [hd]; simp only; omega)
  simp only [fread_part, hf]
  rw [hd]
  refine ⟨?_, trivial, ?_, ?_⟩
  · simp only [FILE.mk.injEq, true_and]
    omega
  · simp [pc98_record]
  · intro j hj
    simp [hj]

/-- More iterations than `PC98_MAX_PARTS - i` change nothing: the bound on the
iterations of the loop of `get_pc98_parts` never cuts it short. -/
theorem get_pc98_parts_loop_fuel :
    ∀ (fuel i : Nat) (s : PartsState), PC98_MAX_PARTS - i ≤ fuel →
      get_pc98_parts_loop fuel i s = get_pc98_parts_loop (PC98_MAX_PARTS - i) i s := by
  intro fuel
  induction fuel with
  | zero =>
    intro i s h
    have h0 : PC98_MAX_PARTS - i = 0 := by omega
    rw [h0]
  | succ fuel ih =>
    intro i s h
    by_cases hi : i < PC98_MAX_PARTS
    · obtain ⟨m, hm⟩ : ∃ m, PC98_MAX_PARTS - i = m + 1 := ⟨PC98_MAX_PARTS - i - 1, by omega⟩
      rw [hm]
      simp only [get_pc98_parts_loop]
      split
      · have h1 : PC98_MAX_PARTS - (i + 1) = m := by omega
        rw [ih (i + 1) _ (by omega), h1]
      · rfl
    · have h0 : PC98_MAX_PARTS - i = 0 := by omega
      rw [h0]
      simp [get_pc98_parts_loop, hi]

/-- The loop of `get_pc98_parts` on an image whose records `0..k-1` have a
non-zero start cylinder and whose record `k` has start cylinder zero. -/
theorem get_pc98_parts_loop_scan (image : List Nat) (k : Nat) (hk : k ≤ 16)
    (hlen : 0x200 + 32 * (k + 1) ≤ image.length)
    (hnz : ∀ j, j < k → (decode_pc98 (pc98_record image j)).scyl ≠ 0)
    (hz : (decode_pc98 (pc98_record image k)).scyl = 0) :
    ∀ (fuel i : Nat) (s : PartsState), i ≤ k → k - i ≤ fuel →
      s.drive = { data := image, pos := 0x200 + 32 * (i + 1) } →
      (∀ j, j ≤ i → s.parts j = decode_pc98 (pc98_record image j)) →
      (get_pc98_parts_loop fuel i s).reads
          = s.reads ++ (List.range' (i + 1) (k - i)).map (fun j => (j, 1))
        ∧ (∀ j, j ≤ k →
            (get_pc98_parts_loop fuel i s).parts j = decode_pc98 (pc98_record image j))
        ∧ (∀ j, k < j → (get_pc98_parts_loop fuel i s).parts j = s.parts j) := by
  intro fuel
  induction fuel with
  | zero =>
    intro i s hik hf hd hp
    have hi : i = k := by omega
    subst hi
    rw [get_pc98_parts_loop]
    refine ⟨by simp, hp, fun _ _ => rfl⟩
  | succ fuel ih =>
    intro i s hik hf hd hp
    rcases Nat.lt_or_ge i k with hlt | hge
    · have hguard : i < PC98_MAX_PARTS ∧ (s.parts i).scyl ≠ 0 := by
        refine ⟨by simp only [PC98_MAX_PARTS]; omega, ?_⟩
        rw [hp i (le_refl i)]
        exact hnz i hlt
      rw [get_pc98_parts_loop, if_pos hguard]
      obtain ⟨fd, fr, fp, fo⟩ := fread_part_full image (i + 1) s hd (by omega)
      have hp2 : ∀ j, j ≤ i + 1 →
          (fread_part (i + 1) s).parts j = decode_pc98 (pc98_record image j) := by
        intro j hj
        rcases Nat.lt_or_ge j (i + 1) with h1 | h1
        · rw [fo j (by omega)]
          exact hp j (by omega)
        · have : j = i + 1 := by omega
          subst this
          exact fp
      obtain ⟨r1, r2, r3⟩ := ih (i + 1) (fread_part (i + 1) s) hlt (by omega) fd hp2
      refine ⟨?_, r2, ?_⟩
      · rw [r1, fr]
        have hki : k - i = (k - (i + 1)) + 1 := by omega
        rw [hki, List.range'_succ]
        simp
      · intro j hj
        rw [r3 j hj, fo j (by omega)]
    · have hi : i = k := by omega
      subst hi
      have hguard : ¬ (i < PC98_MAX_PARTS ∧ (s.parts i).scyl ≠ 0) := by
        rw [hp i (le_refl i)]
        simp [hz]
      rw [get_pc98_parts_loop, if_neg hguard]
      refine ⟨by simp, hp, fun _ _ => rfl⟩

/-- The first loop of `read_ptable` over a table whose entries `0..k-1` have a
non-zero start cylinder and whose entry `k` has start cylinder zero. -/
theorem read_ptable_pc98_loop_scan (parts : Nat → pc98part) (k : Nat)
    (hnz : ∀ j, j < k → (parts j).scyl ≠ 0) (hz : (parts k).scyl = 0) :
    ∀ (fuel i : Nat) (out : List Output), i ≤ k → k - i < fuel →
      read_ptable_pc98_loop parts fuel i out
        = some (k, out ++ (List.range' i (k - i)).map
            (fun j => Output.info_pc98 (parts j) (j + 1))) := by
  intro fuel
  induction fuel with
  | zero =>
    intro i out _ hf
    omega
  | succ fuel ih =>
    intro i out hik hf
    rcases Nat.lt_or_ge i k with hlt | hge
    · simp only [read_ptable_pc98_loop, hnz i hlt, ne_eq, not_false_eq_true, if_true]
      rw [ih (i + 1) _ hlt (by omega)]
      have hki : k - i = (k - (i + 1)) + 1 := by omega
      rw [hki, List.range'_succ]
      simp
    · have hi : i = k := by omega
      subst hi
      simp [read_ptable_pc98_loop, hz]

/-- C4: on an image whose records `0..k-1` at 0x200 have a non-zero start
cylinder and whose record `k` (`k ≤ 16`) has start cylinder zero,
`get_pc98_parts` reads the records `0..k` and no more, the memory it returns
holds them at the indices `0..k`, and the loop of `read_ptable` over it visits
exactly the records `0..k-1` in order, stopping at record `k`. -/
theorem get_pc98_parts_table (heap : Nat → pc98part) (image : List Nat) (k : Nat)
    (hk : k ≤ 16) (hlen : 0x200 + 32 * (k + 1) ≤ image.length)
    (hnz : ∀ j, j < k → (decode_pc98 (pc98_record image j)).scyl ≠ 0)
    (hz : (decode_pc98 (pc98_record image k)).scyl = 0) :
    (get_pc98_parts heap { data := image, pos := 0 }).reads
        = (List.range (k + 1)).map (fun j => (j, 1))
      ∧ (∀ j, j ≤ k → (get_pc98_parts heap { data := image, pos := 0 }).parts j
          = decode_pc98 (pc98_record image j))
      ∧ (∀ fuel, k < fuel →
          read_ptable_pc98_loop (get_pc98_parts heap { data := image, pos := 0 }).parts fuel 0 []
            = some (k, (List.range k).map
                (fun j => Output.info_pc98 (decode_pc98 (pc98_record image j)) (j + 1)))) := by
  obtain ⟨fd, fr, fp, _⟩ := fread_part_full image 0
    ⟨heap, fseek ⟨image, 0⟩ 0x200, []⟩ rfl (by omega)
  have hp0 : ∀ j, j ≤ 0 →
      (fread_part 0 ⟨heap, fseek ⟨image, 0⟩ 0x200, []⟩).parts j
        = decode_pc98 (pc98_record image j) := by
    intro j hj
    have : j = 0 := by omega
    subst this
    exact fp
  obtain ⟨r1, r2, _⟩ := get_pc98_parts_loop_scan image k hk hlen hnz hz PC98_MAX_PARTS 0 _
    (Nat.zero_le k) (by simp only [PC98_MAX_PARTS]; omega) fd hp0
  have hparts : ∀ j, j ≤ k → (get_pc98_parts heap { data := image, pos := 0 }).parts j
      = decode_pc98 (pc98_record image j) := r2
  refine ⟨?_, hparts, ?_⟩
  · show (get_pc98_parts_loop PC98_MAX_PARTS 0 _).reads = _
    rw [r1, fr, List.range_eq_range', List.range'_succ]
    simp
  · intro fuel hf
    rw [read_ptable_pc98_loop_scan _ k (fun j hj => by rw [hparts j (by omega)]; exact hnz j hj)
      (by rw [hparts k (le_refl k)]; exact hz) fuel 0 [] (Nat.zero_le k) (by omega)]
    simp only [List.nil_append, Nat.sub_zero, List.range_eq_range']
    congr 2
    apply List.map_congr_left
    intro j hj
    have hjk : j < k := by
      have := List.mem_range'_1.mp hj
      omega
    rw [hparts j (by omega)]

set_option maxRecDepth 100000 in
theorem get_pc98_parts_table_witness :
    (get_pc98_parts heap_zero { data := image_three, pos := 0 }).reads
        = (List.range (3 + 1)).map (fun j => (j, 1))
      ∧ (∀ j, j ≤ 3 → (get_pc98_parts heap_zero { data := image_three, pos := 0 }).parts j
          = decode_pc98 (pc98_record image_three j))
      ∧ (∀ fuel, 3 < fuel →
          read_ptable_pc98_loop
              (get_pc98_parts heap_zero { data := image_three, pos := 0 }).parts fuel 0 []
            = some (3, (List.range 3).map
                (fun j => Output.info_pc98 (decode_pc98 (pc98_record image_three j)) (j + 1)))) :=
  get_pc98_parts_table heap_zero image_three 3 (by decide) (by decide) (by decide) (by decide)

/-! ## Table writer: theorems -/

theorem encode_mbr_length (p : mbrpart) : (encode_mbr p).length = 16 := by
  simp [encode_mbr, le32]

theorem pwrite_length_head (d : List Nat) (p : Nat) :
    (d.take p ++ List.replicate (p - d.length) 0).length = p := by
  rw [List.length_append, List.length_take, List.length_replicate]
  omega

/-- Two writes, the second where the first ended, are one write of both. -/
theorem pwrite_pwrite (d : List Nat) (p : Nat) (a b : List Nat) :
    pwrite (pwrite d p a) (p + a.length) b = pwrite d p (a ++ b) := by
  by_cases ha : a = []
  · subst ha
    simp [pwrite]
  by_cases hb : b = []
  · subst hb
    simp [pwrite]
  have hab : a ++ b ≠ [] := by simp [ha]
  simp only [pwrite, if_neg ha, if_neg hb, if_neg hab]
  have hP := pwrite_length_head d p
  have hPa : (d.take p ++ List.replicate (p - d.length) 0 ++ a).length = p + a.length := by
    rw [List.length_append, hP]
  rw [List.take_left' hPa]
  have hX : (d.take p ++ List.replicate (p - d.length) 0 ++ a ++ d.drop (p + a.length)).length
      = p + a.length + (d.length - (p + a.length)) := by
    rw [List.length_append, hPa, List.length_drop]
  rw [hX]
  have h0 : p + a.length - (p + a.length + (d.length - (p + a.length))) = 0 := by omega
  rw [h0, List.replicate_zero, List.append_nil]
  have hd : List.drop (p + a.length + b.length)
      (d.take p ++ List.replicate (p - d.length) 0 ++ a ++ d.drop (p + a.length))
      = d.drop (p + (a ++ b).length) := by
    rw [← hPa, List.drop_append, List.drop_drop, hPa, List.length_append]
    congr 1
    omega
  rw [hd]
  simp [List.append_assoc]

/-- An `fwrite` returns 1 exactly when the device accepts the whole item. -/
theorem fwrite_logged_fst (dev : Nat → Nat) (src : List Nat) (s : WriteState) :
    (fwrite_logged dev src s).1 = 1 ↔ src.length ≤ dev s.writes.length := by
  simp only [fwrite_logged, fwrite, List.length_take]
  constructor
  · intro h
    by_contra hc
    rw [if_neg (by omega)] at h
    exact absurd h (by decide)
  · intro h
    rw [if_pos (by omega)]

/-- The log after an `fwrite` is the log before it and the call itself. -/
theorem fwrite_logged_writes (dev : Nat → Nat) (src : List Nat) (s : WriteState) :
    (fwrite_logged dev src s).2.writes
      = s.writes ++ [{ pos := s.drive.pos, src := src, r := (fwrite_logged dev src s).1 }] :=
  rfl

/-- More iterations than `MBR_MAX_PARTS - i` change nothing: the bound on the
iterations of the partition-writing loop never cuts it short. -/
theorem write_mbr_loop_fuel (dev : Nat → Nat) (mparts : List mbrpart) :
    ∀ (fuel i : Nat) (s : WriteState), MBR_MAX_PARTS - i ≤ fuel →
      write_mbr_loop dev mparts fuel i s
        = write_mbr_loop dev mparts (MBR_MAX_PARTS - i) i s := by
  intro fuel
  induction fuel with
  | zero =>
    intro i s h
    have h0 : MBR_MAX_PARTS - i = 0 := by omega
    rw [h0]
  | succ fuel ih =>
    intro i s h
    by_cases hi : i < MBR_MAX_PARTS
    · obtain ⟨m, hm⟩ : ∃ m, MBR_MAX_PARTS - i = m + 1 := ⟨MBR_MAX_PARTS - i - 1, by omega⟩
      rw [hm]
      simp only [write_mbr_loop]
      split
      · split
        · rfl
        · have h1 : MBR_MAX_PARTS - (i + 1) = m := by omega
          rw [ih (i + 1) _ (by omega), h1]
      · rfl
    · have h0 : MBR_MAX_PARTS - i = 0 := by omega
      rw [h0]
      simp [write_mbr_loop, hi]

/-- The byte at offset `p + j` after a write of `src` at `p`. -/
theorem pwrite_getD_at (d : List Nat) (p : Nat) (src : List Nat) (j : Nat)
    (hj : j < src.length) : (pwrite d p src).getD (p + j) 0 = src.getD j 0 := by
  have hne : src ≠ [] := by
    intro h
    rw [h] at hj
    exact absurd hj (by simp)
  have hP := pwrite_length_head d p
  simp only [pwrite, if_neg hne, List.getD_eq_getElem?_getD]
  have hPs : p + j < (d.take p ++ List.replicate (p - d.length) 0 ++ src).length := by
    rw [List.length_append, hP]
    omega
  rw [List.getElem?_append_left hPs, List.getElem?_append_right (by omega), hP,
    Nat.add_sub_cancel_left]

/-- The call that an `fwrite` adds to the log. -/
theorem fwrite_logged_event (dev : Nat → Nat) (src : List Nat) (s : WriteState) :
    ∃ e : WriteEvent, (fwrite_logged dev src s).2.writes = s.writes ++ [e]
      ∧ e.src = src ∧ e.pos = s.drive.pos ∧ e.r = (fwrite_logged dev src s).1 :=
  ⟨{ pos := s.drive.pos, src := src, r := (fwrite_logged dev src s).1 }, rfl, rfl, rfl, rfl⟩

/-- An `fwrite` that the device accepts in full. -/
theorem fwrite_logged_ok (dev : Nat → Nat) (src : List Nat) (s : WriteState)
    (h : src.length ≤ dev s.writes.length) :
    fwrite_logged dev src s
      = (1, { drive := { data := pwrite s.drive.data s.drive.pos src,
                         pos := s.drive.pos + src.length },
              writes := s.writes ++ [{ pos := s.drive.pos, src := src, r := 1 }] }) := by
  simp only [fwrite_logged, fwrite, List.take_of_length_le h, if_true]

/-- For every image: when the writing part of `write_mbr` returns 0, the byte at
offset 0x1FE is 0xAA and the byte at offset 0x1FF is 0x55. -/
theorem write_mbr_table_signature (dev : Nat → Nat) (mparts : List mbrpart)
    (image : List Nat) (out : List Output)
    (h : (write_mbr_table dev mparts image out).ret = 0) :
    (write_mbr_table dev mparts image out).drive.data.getD 0x1FE 0 = 0xAA
      ∧ (write_mbr_table dev mparts image out).drive.data.getD 0x1FF 0 = 0x55 := by
  unfold write_mbr_table at h ⊢
  dsimp only at h ⊢
  split_ifs at h ⊢ with h1 h2
  · have hacc := (fwrite_logged_fst dev (le16 0x55AA) _).mp (not_not.mp h2)
    rw [fwrite_logged_ok dev (le16 0x55AA) _ hacc]
    simp only [fseek]
    exact ⟨pwrite_getD_at _ 0x1FE (le16 0x55AA) 0 (by decide),
      pwrite_getD_at _ 0x1FE (le16 0x55AA) 1 (by decide)⟩

/-- The partition-writing loop when the device accepts every write: from slot
`i` it writes the `m` slots up to the first one of type zero (or up to slot 4). -/
theorem write_mbr_loop_ok (dev : Nat → Nat) (mparts : List mbrpart) :
    ∀ (fuel i m : Nat) (s : WriteState), i + m ≤ 4 → m ≤ fuel →
      (∀ j, j < m → (mparts.getD (i + j) mbrpart_zero).type ≠ 0) →
      (i + m < 4 → (mparts.getD (i + m) mbrpart_zero).type = 0) →
      (∀ j, j < m → 16 ≤ dev (s.writes.length + j)) →
      write_mbr_loop dev mparts fuel i s
        = (true,
            { drive :=
                { data := pwrite s.drive.data s.drive.pos
                    (((List.range' i m).map
                      (fun j => encode_mbr (mparts.getD j mbrpart_zero))).flatten),
                  pos := s.drive.pos + 16 * m },
              writes := s.writes ++ (List.range' 0 m).map (fun j =>
                { pos := s.drive.pos + 16 * j,
                  src := encode_mbr (mparts.getD (i + j) mbrpart_zero), r := 1 }) }) := by
  intro fuel
  induction fuel with
  | zero =>
    intro i m s _ hm _ _ _
    have : m = 0 := by omega
    subst this
    simp [write_mbr_loop, pwrite]
  | succ fuel ih =>
    intro i m s him hm hnz hz hdev
    cases m with
    | zero =>
      have hguard : ¬ (i < MBR_MAX_PARTS ∧ (mparts.getD i mbrpart_zero).type ≠ 0) := by
        intro hg
        exact hg.2 (hz (by simpa [MBR_MAX_PARTS] using hg.1))
      rw [write_mbr_loop, if_neg hguard]
      simp [pwrite]
    | succ m =>
      have hguard : i < MBR_MAX_PARTS ∧ (mparts.getD i mbrpart_zero).type ≠ 0 :=
        ⟨by simp only [MBR_MAX_PARTS]; omega, by simpa using hnz 0 (by omega)⟩
      have hacc : (encode_mbr (mparts.getD i mbrpart_zero)).length ≤ dev s.writes.length := by
        rw [encode_mbr_length]
        simpa using hdev 0 (by omega)
      rw [write_mbr_loop, if_pos hguard]
      simp only [fwrite_logged_ok dev _ s hacc, ne_eq, not_true_eq_false, if_false]
      rw [ih (i + 1) m _ (by omega) (by omega)
        (fun j hj => by
          have := hnz (j + 1) (by omega)
          rwa [show i + (j + 1) = i + 1 + j by omega] at this)
        (fun h => by
          have := hz (by omega)
          rwa [show i + (m + 1) = i + 1 + m by omega] at this)
        (fun j hj => by
          have := hdev (j + 1) (by omega)
          simpa [Nat.add_assoc, Nat.add_comm 1 j] using this)]
      simp only [encode_mbr_length, pwrite_pwrite, List.range'_succ, List.map_cons,
        List.flatten_cons, List.append_assoc, List.singleton_append, Nat.add_zero,
        Nat.mul_zero, Prod.mk.injEq, true_and, WriteState.mk.injEq, FILE.mk.injEq]
      refine ⟨⟨?_, by omega⟩, ?_⟩
      · have hpp := pwrite_pwrite s.drive.data s.drive.pos
          (encode_mbr (mparts.getD i mbrpart_zero))
          ((List.range' (i + 1) m).map
            (fun j => encode_mbr (mparts.getD j mbrpart_zero))).flatten
        rw [encode_mbr_length] at hpp
        exact hpp
      · congr 2
        have hr : List.range' (0 + 1) m = (List.range' 0 m).map (fun j => 1 + j) := by
          rw [List.map_add_range']
        rw [hr, List.map_map]
        apply List.map_congr_left
        intro j _
        simp only [Function.comp, WriteEvent.mk.injEq, and_true]
        refine ⟨by omega, ?_⟩
        rw [show i + 1 + j = i + (1 + j) by omega]

/-- The first `k` slots of a table, read slot by slot. -/
theorem map_getD_range_eq_take (l : List mbrpart) (k : Nat) (hk : k ≤ l.length) :
    (List.range k).map (fun j => l.getD j mbrpart_zero) = l.take k := by
  apply List.ext_getElem
  · simp [hk]
  · intro n h1 h2
    simp only [List.length_map, List.length_range] at h1
    simp [List.getD_eq_getElem?_getD, List.getElem?_eq_getElem (show n < l.length by omega)]

/-- C9: for a 4-slot table whose slots `0..k-1` have a non-zero type and whose
slot `k` (if `k < 4`) has type zero, on a device that accepts these writes, the
partition-writing loop of `write_mbr` makes exactly `k` writes, of the
encodings of the slots `0..k-1` at the offsets `0x1BE + 16 * j`, which amount
to one write of `16 * k` bytes at 0x1BE; no slot from `k` on is written. -/
theorem write_mbr_loop_writes (dev : Nat → Nat) (mparts : List mbrpart) (data : List Nat)
    (k : Nat) (hlen : mparts.length = 4) (hk : k ≤ 4)
    (hnz : ∀ j, j < k → (mparts.getD j mbrpart_zero).type ≠ 0)
    (hz : k < 4 → (mparts.getD k mbrpart_zero).type = 0)
    (hdev : ∀ j, j < k → 16 ≤ dev j) :
    write_mbr_loop dev mparts MBR_MAX_PARTS 0
        { drive := fseek { data := data, pos := 0 } 0x1BE, writes := [] }
      = (true,
          { drive := { data := pwrite data 0x1BE ((mparts.take k).map encode_mbr).flatten,
                       pos := 0x1BE + 16 * k },
            writes := (List.range k).map (fun j =>
              { pos := 0x1BE + 16 * j, src := encode_mbr (mparts.getD j mbrpart_zero),
                r := 1 }) })
      ∧ ((mparts.take k).map encode_mbr).flatten.length = 16 * k := by
  constructor
  · rw [write_mbr_loop_ok dev mparts MBR_MAX_PARTS 0 k _ (by omega)
      (by simp only [MBR_MAX_PARTS]; omega)
      (fun j hj => by simpa using hnz j hj) (fun h => by simpa using hz (by omega))
      (fun j hj => by simpa using hdev j hj)]
    simp only [fseek, List.nil_append, Nat.zero_add, ← List.range_eq_range']
    rw [← map_getD_range_eq_take mparts k (by omega), List.map_map]
    rfl
  · have hl : ∀ l : List mbrpart, (l.map encode_mbr).flatten.length = 16 * l.length := by
      intro l
      induction l with
      | nil => rfl
      | cons a t ih =>
        simp only [List.map_cons, List.flatten_cons, List.length_append, encode_mbr_length, ih,
          List.length_cons]
        omega
    rw [hl, List.length_take]
    omega

set_option maxRecDepth 100000 in
theorem write_mbr_loop_writes_witness :
    write_mbr_loop dev_accept mparts_gap MBR_MAX_PARTS 0
        { drive := fseek { data := image_one, pos := 0 } 0x1BE, writes := [] }
      = (true,
          { drive := { data := pwrite image_one 0x1BE
                          ((mparts_gap.take 2).map encode_mbr).flatten,
                       pos := 0x1BE + 16 * 2 },
            writes := (List.range 2).map (fun j =>
              { pos := 0x1BE + 16 * j, src := encode_mbr (mparts_gap.getD j mbrpart_zero),
                r := 1 }) })
      ∧ ((mparts_gap.take 2).map encode_mbr).flatten.length = 16 * 2 :=
  write_mbr_loop_writes dev_accept mparts_gap image_one 2 (by decide) (by decide)
    (by decide) (by decide) (by decide)

/-- The calls of the partition-writing loop: successful 16-byte writes, ended
by a failing 16-byte write exactly when the loop takes the branch that
returns 2. -/
theorem write_mbr_loop_log (dev : Nat → Nat) (mparts : List mbrpart) :
    ∀ (fuel i : Nat) (s : WriteState), ∃ es : List WriteEvent,
      (∀ x, x ∈ es → x.src.length = 16 ∧ x.r = 1)
        ∧ (((write_mbr_loop dev mparts fuel i s).1 = true
              ∧ (write_mbr_loop dev mparts fuel i s).2.writes = s.writes ++ es)
            ∨ ((write_mbr_loop dev mparts fuel i s).1 = false
              ∧ ∃ e : WriteEvent, e.src.length = 16 ∧ e.r ≠ 1
                ∧ (write_mbr_loop dev mparts fuel i s).2.writes = s.writes ++ es ++ [e])) := by
  intro fuel
  induction fuel with
  | zero =>
    intro i s
    exact ⟨[], by simp, Or.inl ⟨rfl, by simp [write_mbr_loop]⟩⟩
  | succ fuel ih =>
    intro i s
    rw [write_mbr_loop]
    by_cases hguard : i < MBR_MAX_PARTS ∧ (mparts.getD i mbrpart_zero).type ≠ 0
    · rw [if_pos hguard]
      by_cases hr : (fwrite_logged dev (encode_mbr (mparts.getD i mbrpart_zero)) s).1 ≠ 1
      · rw [if_pos hr]
        refine ⟨[], by simp, Or.inr ⟨rfl,
          { pos := s.drive.pos, src := encode_mbr (mparts.getD i mbrpart_zero),
            r := (fwrite_logged dev (encode_mbr (mparts.getD i mbrpart_zero)) s).1 },
          encode_mbr_length _, hr, ?_⟩⟩
        rw [fwrite_logged_writes, List.append_nil]
      · rw [if_neg hr]
        have hr1 : (fwrite_logged dev (encode_mbr (mparts.getD i mbrpart_zero)) s).1 = 1 :=
          not_not.mp hr
        obtain ⟨es, hes, hcase⟩ := ih (i + 1)
          (fwrite_logged dev (encode_mbr (mparts.getD i mbrpart_zero)) s).2
        refine ⟨{ pos := s.drive.pos, src := encode_mbr (mparts.getD i mbrpart_zero), r := 1 }
          :: es, ?_, ?_⟩
        · intro x hx
          rcases List.mem_cons.mp hx with h | h
          · subst h
            exact ⟨encode_mbr_length _, rfl⟩
          · exact hes x h
        · rw [fwrite_logged_writes, hr1] at hcase
          rcases hcase with ⟨h1, h2⟩ | ⟨h1, e, he1, he2, h2⟩
          · exact Or.inl ⟨h1, by rw [h2]; simp⟩
          · exact Or.inr ⟨h1, e, he1, he2, by rw [h2]; simp⟩
    · rw [if_neg hguard]
      exact ⟨[], by simp, Or.inl ⟨rfl, by simp⟩⟩

/-- The calls of the writing part of `write_mbr`, by exit code: successful
16-byte partition writes, then either a failing partition write (exit code 2)
or the write of the two signature bytes at 0x1FE, failing (3) or not (0). -/
theorem write_mbr_table_log (dev : Nat → Nat) (mparts : List mbrpart) (image : List Nat)
    (out : List Output) :
    ∃ (es : List WriteEvent) (e : WriteEvent),
      (write_mbr_table dev mparts image out).writes = es ++ [e]
        ∧ (∀ x, x ∈ es → x.src.length = 16 ∧ x.r = 1)
        ∧ (((write_mbr_table dev mparts image out).ret = 2 ∧ e.src.length = 16 ∧ e.r ≠ 1)
            ∨ ((write_mbr_table dev mparts image out).ret = 3
                ∧ e.src = le16 0x55AA ∧ e.pos = 0x1FE ∧ e.r ≠ 1)
            ∨ ((write_mbr_table dev mparts image out).ret = 0
                ∧ e.src = le16 0x55AA ∧ e.pos = 0x1FE ∧ e.r = 1)) := by
  obtain ⟨es, hes, hcase⟩ := write_mbr_loop_log dev mparts MBR_MAX_PARTS 0
    { drive := fseek { data := image, pos := 0 } 0x1BE, writes := [] }
  unfold write_mbr_table
  dsimp only
  rcases hcase with ⟨h1, h2⟩ | ⟨h1, e, he1, he2, h2⟩
  · rw [if_neg (by rw [h1]; decide)]
    obtain ⟨e, hw, hsrc, hpos, hr⟩ := fwrite_logged_event dev (le16 0x55AA)
      { drive := fseek (write_mbr_loop dev mparts MBR_MAX_PARTS 0
          { drive := fseek { data := image, pos := 0 } 0x1BE, writes := [] }).2.drive 0x1FE,
        writes := (write_mbr_loop dev mparts MBR_MAX_PARTS 0
          { drive := fseek { data := image, pos := 0 } 0x1BE, writes := [] }).2.writes }
    replace hw := hw.trans (by rw [h2, List.nil_append])
    split_ifs with hs
    · exact ⟨es, e, hw, hes, Or.inr (Or.inl ⟨rfl, hsrc, hpos, by rw [hr]; exact hs⟩)⟩
    · exact ⟨es, e, hw, hes, Or.inr (Or.inr ⟨rfl, hsrc, hpos, by rw [hr]; exact not_not.mp hs⟩)⟩
  · rw [if_pos h1]
    exact ⟨es, e, by simpa using h2, hes, Or.inl ⟨rfl, he1, he2⟩⟩

/-- What the shape of the log says about the exit code. -/
theorem exit_code_of_log (ret : Nat) (writes : List WriteEvent)
    (h : ∃ (es : List WriteEvent) (e : WriteEvent), writes = es ++ [e]
      ∧ (∀ x, x ∈ es → x.src.length = 16 ∧ x.r = 1)
      ∧ ((ret = 2 ∧ e.src.length = 16 ∧ e.r ≠ 1)
          ∨ (ret = 3 ∧ e.src = le16 0x55AA ∧ e.pos = 0x1FE ∧ e.r ≠ 1)
          ∨ (ret = 0 ∧ e.src = le16 0x55AA ∧ e.pos = 0x1FE ∧ e.r = 1))) :
    (ret = 2 ↔ ∃ x, x ∈ writes ∧ x.src.length = 16 ∧ x.r ≠ 1)
      ∧ (ret = 2 → ∃ (es : List WriteEvent) (e : WriteEvent), writes = es ++ [e]
          ∧ e.src.length = 16 ∧ e.r ≠ 1 ∧ ∀ x, x ∈ es → x.src.length = 16 ∧ x.r = 1)
      ∧ (ret = 3 ↔ (∀ x, x ∈ writes → x.src.length = 16 → x.r = 1)
          ∧ ∃ x, x ∈ writes ∧ x.src = le16 0x55AA ∧ x.pos = 0x1FE ∧ x.r ≠ 1)
      ∧ (ret = 0 ↔ (∀ x, x ∈ writes → x.r = 1)
          ∧ ∃ x, x ∈ writes ∧ x.src = le16 0x55AA ∧ x.pos = 0x1FE) := by
  obtain ⟨es, e, hw, hes, hcase⟩ := h
  have hsig : ∀ x : WriteEvent, x.src = le16 0x55AA → x.src.length ≠ 16 := by
    intro x hx
    rw [hx]
    decide
  have hmem : ∀ x, x ∈ writes ↔ x ∈ es ∨ x = e := by
    intro x
    rw [hw]
    simp
  rcases hcase with ⟨hr, h1, h2⟩ | ⟨hr, h1, h2, h3⟩ | ⟨hr, h1, h2, h3⟩
  · subst hr
    refine ⟨⟨fun _ => ⟨e, (hmem e).mpr (Or.inr rfl), h1, h2⟩, fun _ => rfl⟩,
      fun _ => ⟨es, e, hw, h1, h2, hes⟩, ⟨fun h => absurd h (by decide), ?_⟩,
      ⟨fun h => absurd h (by decide), ?_⟩⟩
    · rintro ⟨hall, _⟩
      exact absurd (hall e ((hmem e).mpr (Or.inr rfl)) h1) h2
    · rintro ⟨hall, _⟩
      exact absurd (hall e ((hmem e).mpr (Or.inr rfl))) h2
  · subst hr
    refine ⟨⟨fun h => absurd h (by decide), ?_⟩, fun h => absurd h (by decide),
      ⟨fun _ => ⟨?_, e, (hmem e).mpr (Or.inr rfl), h1, h2, h3⟩, fun _ => rfl⟩,
      ⟨fun h => absurd h (by decide), ?_⟩⟩
    · rintro ⟨x, hx, hx1, hx2⟩
      rcases (hmem x).mp hx with hin | heq
      · exact absurd (hes x hin).2 hx2
      · subst heq
        exact absurd hx1 (hsig x h1)
    · intro x hx hx1
      rcases (hmem x).mp hx with hin | heq
      · exact (hes x hin).2
      · subst heq
        exact absurd hx1 (hsig x h1)
    · rintro ⟨hall, _⟩
      exact absurd (hall e ((hmem e).mpr (Or.inr rfl))) h3
  · subst hr
    refine ⟨⟨fun h => absurd h (by decide), ?_⟩, fun h => absurd h (by decide),
      ⟨fun h => absurd h (by decide), ?_⟩,
      ⟨fun _ => ⟨?_, e, (hmem e).mpr (Or.inr rfl), h1, h2⟩, fun _ => rfl⟩⟩
    · rintro ⟨x, hx, hx1, hx2⟩
      rcases (hmem x).mp hx with hin | heq
      · exact absurd (hes x hin).2 hx2
      · subst heq
        exact absurd h3 hx2
    · rintro ⟨_, x, hx, hx1, _, hx2⟩
      rcases (hmem x).mp hx with hin | heq
      · exact absurd (hes x hin).2 hx2
      · subst heq
        exact absurd h3 hx2
    · intro x hx
      rcases (hmem x).mp hx with hin | heq
      · exact (hes x hin).2
      · subst heq
        exact h3

/-- C10: `write_mbr` returns 2 exactly when some partition write (a write of
a 16-byte entry) returns an item count other than 1, and then that write is
the last call made: the calls before it are successful partition writes and
there is no signature write; it returns 3 exactly when every partition write
succeeds and the signature write at 0x1FE fails; it returns 0 exactly when
every write made succeeds, the signature write being among them. -/
theorem write_mbr_exit_code (heap : Nat → pc98part) (dev : Nat → Nat) (image : List Nat) :
    ((write_mbr heap dev image).ret = 2
        ↔ ∃ x, x ∈ (write_mbr heap dev image).writes ∧ x.src.length = 16 ∧ x.r ≠ 1)
      ∧ ((write_mbr heap dev image).ret = 2 →
          ∃ (es : List WriteEvent) (e : WriteEvent),
            (write_mbr heap dev image).writes = es ++ [e]
              ∧ e.src.length = 16 ∧ e.r ≠ 1 ∧ ∀ x, x ∈ es → x.src.length = 16 ∧ x.r = 1)
      ∧ ((write_mbr heap dev image).ret = 3
        ↔ (∀ x, x ∈ (write_mbr heap dev image).writes → x.src.length = 16 → x.r = 1)
          ∧ ∃ x, x ∈ (write_mbr heap dev image).writes
              ∧ x.src = le16 0x55AA ∧ x.pos = 0x1FE ∧ x.r ≠ 1)
      ∧ ((write_mbr heap dev image).ret = 0
        ↔ (∀ x, x ∈ (write_mbr heap dev image).writes → x.r = 1)
          ∧ ∃ x, x ∈ (write_mbr heap dev image).writes
              ∧ x.src = le16 0x55AA ∧ x.pos = 0x1FE) :=
  exit_code_of_log _ _ (write_mbr_table_log dev _ image _)

set_option maxRecDepth 1000000 in
/-- C8 (the code at a failing input): `write_mbr` on `image_one`, every write
accepted, returns 0 and leaves 0xAA at offset 0x1FE and 0x55 at offset 0x1FF,
the two signature bytes in the reverse of the order 0x55, 0xAA. -/
theorem write_mbr_signature_bytes :
    (write_mbr heap_zero dev_accept image_one).ret = 0
      ∧ (write_mbr heap_zero dev_accept image_one).drive.data.getD 0x1FE 0 = 0xAA
      ∧ (write_mbr heap_zero dev_accept image_one).drive.data.getD 0x1FF 0 = 0x55 := by
  decide

set_option maxRecDepth 1000000 in
/-- C5 (the code at a failing input): on `image_eighteen`, `get_pc98_parts`
makes 18 reads, the last of them into `parts[17]`, behind the 17 entries
allocated, and the loop of `read_ptable` visits the index 17 (it prints that
entry as partition 18) and ends at index 18. -/
theorem get_pc98_parts_overrun :
    (get_pc98_parts heap_zero { data := image_eighteen, pos := 0 }).reads
        = (List.range 18).map (fun j => (j, 1))
      ∧ (17, 1) ∈ (get_pc98_parts heap_zero { data := image_eighteen, pos := 0 }).reads
      ∧ ¬ (17 < PC98_MAX_PARTS)
      ∧ (read_ptable_pc98_loop
            (get_pc98_parts heap_zero { data := image_eighteen, pos := 0 }).parts 19 0 []).map
          (fun r => (r.1, r.2.getLast?))
        = some (18, some (Output.info_pc98 (pc98_entry 0x91 171 180) 18)) := by
  decide

/-! ## Command line: theorems -/

/-- With fewer than 3 arguments, a first argument that does not start with
`-`, or the mode letter `h`, `main` runs `print_help` and returns its value. -/
theorem main_help (heap : Nat → pc98part) (mp0 : mbrpart) (dev : Nat → Nat)
    (disk : String → List Nat) (fuel : Nat) (argv : List String)
    (h : argv.length < 3 ∨ char_at (argv.getD 1 "") 0 ≠ '-'
      ∨ char_at (argv.getD 1 "") 1 = 'h') :
    main heap mp0 dev disk fuel argv = some (print_help (argv.getD 0 ""))
      ∧ (print_help (argv.getD 0 "")).1 = 1 := by
  refine ⟨?_, rfl⟩
  unfold main
  by_cases h1 : argv.length < 3 ∨ char_at (argv.getD 1 "") 0 ≠ '-'
  · rw [if_pos h1]
  · rw [if_neg h1]
    have h2 : char_at (argv.getD 1 "") 1 = 'h' := by
      rcases h with h | h | h
      · exact absurd (Or.inl h) h1
      · exact absurd (Or.inr h) h1
      · exact h
    rw [if_pos h2]

/-- With 3 arguments or more, a first argument that starts with `-` and a mode
letter that is none of `h`, `r`, `s`, `w`, `main` prints nothing and returns 0. -/
theorem main_no_mode (heap : Nat → pc98part) (mp0 : mbrpart) (dev : Nat → Nat)
    (disk : String → List Nat) (fuel : Nat) (argv : List String)
    (h3 : 3 ≤ argv.length) (hd : char_at (argv.getD 1 "") 0 = '-')
    (hh : char_at (argv.getD 1 "") 1 ≠ 'h') (hr : char_at (argv.getD 1 "") 1 ≠ 'r')
    (hs : char_at (argv.getD 1 "") 1 ≠ 's') (hw : char_at (argv.getD 1 "") 1 ≠ 'w') :
    main heap mp0 dev disk fuel argv = some (0, []) := by
  unfold main
  rw [if_neg (by
    intro h
    rcases h with h | h
    · omega
    · exact h hd), if_neg hh, if_neg hr, if_neg hs, if_neg hw]

/-- C11 (the code at a failing input): with the arguments `98tombr -x disk.img`
`main` returns 0 and prints nothing, whatever the image, while help mode
returns 1 and prints the usage text. -/
theorem main_unknown_mode :
    (∀ (disk : String → List Nat) (fuel : Nat),
        main heap_zero mbrpart_zero dev_accept disk fuel argv_unknown = some (0, []))
      ∧ (print_help "98tombr").1 = 1 ∧ (print_help "98tombr").2.length = 6 := by
  refine ⟨fun disk fuel => ?_, rfl, rfl⟩
  exact main_no_mode heap_zero mbrpart_zero dev_accept disk fuel argv_unknown
    (by decide) (by decide) (by decide) (by decide) (by decide) (by decide)

/-! ## Type mapper: diagnostics -/

set_option maxRecDepth 1000000 in
/-- C14: for every 7-bit code, `wildguess` prints exactly the one message "no
equivalent in MBR" for PC-UX (0x04) and N88-BASIC (0x06), exactly the one
message "unknown identifier" for a code that is none of the nine named codes,
and nothing for BSD (0x44) and the six mapped codes; its only other result is
the type byte. -/
theorem wildguess_diagnostics (t : Nat) (ht : t < 128) :
    ((t = 0x04 ∨ t = 0x06) → (wildguess t).2
        = [Output.text "This partition format has no equivalent in MBR. Marked as free (0x00).\n"])
      ∧ (t ∉ [0x01, 0x04, 0x06, 0x11, 0x21, 0x31, 0x44, 0x61, 0x62] → (wildguess t).2
        = [Output.text "This partition has a unknown identifier. Marked as free (0x00).\n"])
      ∧ (t ∈ [0x44, 0x01, 0x11, 0x21, 0x31, 0x61, 0x62] → (wildguess t).2 = []) := by
  revert t
  decide

theorem wildguess_diagnostics_witness :
    (((0x06 : Nat) = 0x04 ∨ (0x06 : Nat) = 0x06) → (wildguess 0x06).2
        = [Output.text "This partition format has no equivalent in MBR. Marked as free (0x00).\n"])
      ∧ ((0x06 : Nat) ∉ [0x01, 0x04, 0x06, 0x11, 0x21, 0x31, 0x44, 0x61, 0x62] → (wildguess 0x06).2
        = [Output.text "This partition has a unknown identifier. Marked as free (0x00).\n"])
      ∧ ((0x06 : Nat) ∈ [0x44, 0x01, 0x11, 0x21, 0x31, 0x61, 0x62] → (wildguess 0x06).2 = []) :=
  wildguess_diagnostics 0x06 (by decide)

/-! ## Table builder: what the table depends on -/

/-- The loop of `get_mbr_suggestion` gives the same result on two tables whose
first four entries agree on the start cylinder, the end cylinder and the low 7
bits of the system-id. -/
theorem get_mbr_suggestion_loop_congr (p q : Nat → pc98part)
    (h : ∀ i, i < 4 → (p i).scyl = (q i).scyl ∧ (p i).ecyl = (q i).ecyl
      ∧ (p i).sid &&& 0x7F = (q i).sid &&& 0x7F) :
    ∀ (fuel i : Nat) (s : List mbrpart × List Output),
      get_mbr_suggestion_loop p fuel i s = get_mbr_suggestion_loop q fuel i s := by
  intro fuel
  induction fuel with
  | zero =>
    intro i s
    rfl
  | succ fuel ih =>
    intro i s
    simp only [get_mbr_suggestion_loop]
    by_cases hi : i < MBR_MAX_PARTS
    · obtain ⟨h1, h2, h3⟩ := h i (by simpa [MBR_MAX_PARTS] using hi)
      have hb : get_mbr_suggestion_body p i s = get_mbr_suggestion_body q i s := by
        simp only [get_mbr_suggestion_body, lbastart_of, lbasize_of, PC98_SID_MASK, h1, h2, h3]
      rw [h1, hb, ih]
    · simp [hi]

/-- C15: two PC-98 tables whose first four entries agree on the start cylinder,
the end cylinder and the low 7 bits of the system-id give the same result of
`get_mbr_suggestion` (table and diagnostics), whatever their other fields and
their entries from the fifth on. -/
theorem get_mbr_suggestion_depends (p q : Nat → pc98part)
    (h : ∀ i, i < 4 → (p i).scyl = (q i).scyl ∧ (p i).ecyl = (q i).ecyl
      ∧ (p i).sid &&& 0x7F = (q i).sid &&& 0x7F) :
    get_mbr_suggestion p = get_mbr_suggestion q :=
  get_mbr_suggestion_loop_congr p q h MBR_MAX_PARTS 0 _

theorem get_mbr_suggestion_depends_witness :
    get_mbr_suggestion parts_dressed = get_mbr_suggestion parts_plain :=
  get_mbr_suggestion_depends parts_dressed parts_plain (by decide)

/-! ## Table builder: LBA ranges -/

/-- The stored `lbasize` of an entry with `scyl ≤ ecyl + 1` and a 16-bit end
cylinder, as a natural number. -/
theorem lbasize_of_eq (p : pc98part) (hs : p.scyl ≤ p.ecyl + 1) (he : p.ecyl < 65536) :
    lbasize_of p = (p.ecyl + 1 - p.scyl) * 136 := by
  have h := lbasize_of_cast p
  rw [Int.emod_eq_of_lt (by omega) (by omega)] at h
  omega

/-- C19: for two converted entries `i` and `j` with 16-bit cylinder fields and
`scyl i ≤ ecyl i < scyl j ≤ ecyl j`, the derived ranges do not wrap and do not
overlap: `lbastart + lbasize` is `(ecyl + 1) * 136`, below `2 ^ 32`, for both,
and the end of the range of `i` is at most `lbastart` of `j`, with equality
exactly when `scyl j = ecyl i + 1`. -/
theorem get_mbr_suggestion_ranges (parts : Nat → pc98part) (i j : Nat) (hi : i < 4)
    (hj : j < 4) (hnzi : ∀ m, m ≤ i → (parts m).scyl ≠ 0)
    (hnzj : ∀ m, m ≤ j → (parts m).scyl ≠ 0)
    (hei : (parts i).ecyl < 65536) (hej : (parts j).ecyl < 65536)
    (h1 : (parts i).scyl ≤ (parts i).ecyl) (h2 : (parts i).ecyl < (parts j).scyl)
    (h3 : (parts j).scyl ≤ (parts j).ecyl) :
    ((get_mbr_suggestion parts).1.getD i mbrpart_zero).lbastart
        + ((get_mbr_suggestion parts).1.getD i mbrpart_zero).lbasize
        = ((parts i).ecyl + 1) * 136
      ∧ ((get_mbr_suggestion parts).1.getD j mbrpart_zero).lbastart
        + ((get_mbr_suggestion parts).1.getD j mbrpart_zero).lbasize
        = ((parts j).ecyl + 1) * 136
      ∧ ((parts i).ecyl + 1) * 136 < 2 ^ 32 ∧ ((parts j).ecyl + 1) * 136 < 2 ^ 32
      ∧ ((get_mbr_suggestion parts).1.getD i mbrpart_zero).lbastart
        + ((get_mbr_suggestion parts).1.getD i mbrpart_zero).lbasize
        ≤ ((get_mbr_suggestion parts).1.getD j mbrpart_zero).lbastart
      ∧ (((get_mbr_suggestion parts).1.getD i mbrpart_zero).lbastart
        + ((get_mbr_suggestion parts).1.getD i mbrpart_zero).lbasize
        = ((get_mbr_suggestion parts).1.getD j mbrpart_zero).lbastart
          ↔ (parts j).scyl = (parts i).ecyl + 1) := by
  rw [get_mbr_suggestion_slot parts i hi hnzi, get_mbr_suggestion_slot parts j hj hnzj]
  have hp : (2 : Nat) ^ 32 = 4294967296 := by norm_num
  rw [hp]
  simp only
  rw [lbastart_of_eq (parts i) (by omega), lbastart_of_eq (parts j) (by omega),
    lbasize_of_eq (parts i) (by omega) hei, lbasize_of_eq (parts j) (by omega) hej]
  refine ⟨by omega, by omega, by omega, by omega, by omega, ?_⟩
  constructor <;> intro h <;> omega

theorem get_mbr_suggestion_ranges_witness :
    ((get_mbr_suggestion parts_ten_entries).1.getD 0 mbrpart_zero).lbastart
        + ((get_mbr_suggestion parts_ten_entries).1.getD 0 mbrpart_zero).lbasize
        = ((parts_ten_entries 0).ecyl + 1) * 136
      ∧ ((get_mbr_suggestion parts_ten_entries).1.getD 1 mbrpart_zero).lbastart
        + ((get_mbr_suggestion parts_ten_entries).1.getD 1 mbrpart_zero).lbasize
        = ((parts_ten_entries 1).ecyl + 1) * 136
      ∧ ((parts_ten_entries 0).ecyl + 1) * 136 < 2 ^ 32
      ∧ ((parts_ten_entries 1).ecyl + 1) * 136 < 2 ^ 32
      ∧ ((get_mbr_suggestion parts_ten_entries).1.getD 0 mbrpart_zero).lbastart
        + ((get_mbr_suggestion parts_ten_entries).1.getD 0 mbrpart_zero).lbasize
        ≤ ((get_mbr_suggestion parts_ten_entries).1.getD 1 mbrpart_zero).lbastart
      ∧ (((get_mbr_suggestion parts_ten_entries).1.getD 0 mbrpart_zero).lbastart
        + ((get_mbr_suggestion parts_ten_entries).1.getD 0 mbrpart_zero).lbasize
        = ((get_mbr_suggestion parts_ten_entries).1.getD 1 mbrpart_zero).lbastart
          ↔ (parts_ten_entries 1).scyl = (parts_ten_entries 0).ecyl + 1) :=
  get_mbr_suggestion_ranges parts_ten_entries 0 1 (by decide) (by decide) (by decide)
    (by decide) (by decide) (by decide) (by decide) (by decide) (by decide)

/-! ## Record layouts: theorems -/

/-- A list is the list of its elements read by index. -/
theorem list_eq_map_getD (l : List Nat) (n : Nat) (h : l.length = n) :
    l = (List.range n).map (fun i => l.getD i 0) := by
  apply List.ext_getElem
  · simp [h]
  · intro k h1 h2
    simp [List.getD_eq_getElem?_getD, List.getElem?_eq_getElem h1]

/-- Every element read from a list of bytes is a byte. -/
theorem getD_lt_256 (l : List Nat) (h : ∀ x, x ∈ l → x < 256) (i : Nat) :
    l.getD i 0 < 256 := by
  rw [List.getD_eq_getElem?_getD]
  by_cases hi : i < l.length
  · rw [List.getElem?_eq_getElem hi]
    exact h _ (List.getElem_mem hi)
  · rw [List.getElem?_eq_none (by omega)]
    decide

theorem encode_decode_mbr (b : List Nat) (hl : b.length = 16) (hb : ∀ x, x ∈ b → x < 256) :
    encode_mbr (decode_mbr b) = b := by
  have hg := getD_lt_256 b hb
  conv_rhs => rw [list_eq_map_getD b 16 hl]
  simp only [encode_mbr, decode_mbr, rd8, rd32, le32, List.range_succ, List.range_zero,
    List.map_append, List.map_cons, List.map_nil, List.nil_append, List.cons_append,
    List.append_assoc, List.singleton_append, Nat.reduceAdd]
  have h0 := hg 0
  have h1 := hg 1
  have h2 := hg 2
  have h3 := hg 3
  have h4 := hg 4
  have h5 := hg 5
  have h6 := hg 6
  have h7 := hg 7
  have h8 := hg 8
  have h9 := hg 9
  have h10 := hg 10
  have h11 := hg 11
  have h12 := hg 12
  have h13 := hg 13
  have h14 := hg 14
  have h15 := hg 15
  simp only [List.cons.injEq, and_true]
  refine ⟨?_, ?_, ?_, ?_, ?_, ?_, ?_, ?_, ?_, ?_, ?_, ?_, ?_, ?_, ?_, ?_⟩ <;> omega

theorem encode_decode_pc98 (b : List Nat) (hl : b.length = 32) (hb : ∀ x, x ∈ b → x < 256) :
    encode_pc98 (decode_pc98 b) = b := by
  have hg := getD_lt_256 b hb
  conv_rhs => rw [list_eq_map_getD b 32 hl]
  simp only [encode_pc98, decode_pc98, rd8, rd16, le16, List.range_succ, List.range_zero,
    List.map_append, List.map_cons, List.map_nil, List.nil_append, List.cons_append,
    List.append_assoc, List.singleton_append, Nat.reduceAdd, List.getD_cons_zero,
    List.getD_cons_succ]
  have h0 := hg 0
  have h1 := hg 1
  have h2 := hg 2
  have h3 := hg 3
  have h4 := hg 4
  have h5 := hg 5
  have h6 := hg 6
  have h7 := hg 7
  have h8 := hg 8
  have h9 := hg 9
  have h10 := hg 10
  have h11 := hg 11
  have h12 := hg 12
  have h13 := hg 13
  have h14 := hg 14
  have h15 := hg 15
  have h16 := hg 16
  have h17 := hg 17
  have h18 := hg 18
  have h19 := hg 19
  have h20 := hg 20
  have h21 := hg 21
  have h22 := hg 22
  have h23 := hg 23
  have h24 := hg 24
  have h25 := hg 25
  have h26 := hg 26
  have h27 := hg 27
  have h28 := hg 28
  have h29 := hg 29
  have h30 := hg 30
  have h31 := hg 31
  simp only [List.cons.injEq, and_true]
  refine ⟨?_, ?_, ?_, ?_, ?_, ?_, ?_, ?_, ?_, ?_, ?_, ?_, ?_, ?_, ?_, ?_,
    ?_, ?_, ?_, ?_, ?_, ?_, ?_, ?_, ?_, ?_, ?_, ?_, ?_, ?_, ?_, ?_⟩ <;> omega

theorem decode_encode_mbr (p : mbrpart) (hp : mbrpart_ok p) :
    decode_mbr (encode_mbr p) = p := by
  obtain ⟨h0, h1, h2, h3, h4, h5, h6, h7, h8, h9⟩ := hp
  cases p
  simp only [encode_mbr, decode_mbr, rd8, rd32, le32, List.cons_append, List.nil_append,
    List.getD_cons_zero, List.getD_cons_succ, Nat.reduceAdd, mbrpart.mk.injEq] at *
  refine ⟨?_, ?_, ?_, ?_, ?_, ?_, ?_, ?_, ?_, ?_⟩ <;> omega

theorem decode_encode_pc98 (p : pc98part) (hp : pc98part_ok p) :
    decode_pc98 (encode_pc98 p) = p := by
  obtain ⟨h0, h1, h2, h3, h4, h5, h6, h7, h8, h9, h10, h11, h12, hlen, hname⟩ := hp
  have hg := getD_lt_256 p.name hname
  have hn := list_eq_map_getD p.name 16 hlen
  cases p with
  | mk mid sid dum1 dum2 ipl_sct ipl_head ipl_cyl ssect shd scyl esect ehd ecyl name =>
  simp only at h0 h1 h2 h3 h4 h5 h6 h7 h8 h9 h10 h11 h12 hlen hname hg hn
  have n0 := hg 0
  have n1 := hg 1
  have n2 := hg 2
  have n3 := hg 3
  have n4 := hg 4
  have n5 := hg 5
  have n6 := hg 6
  have n7 := hg 7
  have n8 := hg 8
  have n9 := hg 9
  have n10 := hg 10
  have n11 := hg 11
  have n12 := hg 12
  have n13 := hg 13
  have n14 := hg 14
  have n15 := hg 15
  simp only [encode_pc98, decode_pc98, rd8, rd16, le16, List.range_succ, List.range_zero,
    List.map_append, List.map_cons, List.map_nil, List.nil_append, List.cons_append,
    List.append_assoc, List.singleton_append, Nat.reduceAdd, List.getD_cons_zero,
    List.getD_cons_succ, pc98part.mk.injEq]
  refine ⟨?_, ?_, ?_, ?_, ?_, ?_, ?_, ?_, ?_, ?_, ?_, ?_, ?_, ?_⟩
  all_goals first
    | omega
    | skip
  conv_rhs => rw [hn]
  simp only [List.range_succ, List.range_zero, List.map_append, List.map_cons, List.map_nil,
    List.nil_append, List.cons_append, List.append_assoc, List.singleton_append,
    List.cons.injEq, and_true]
  refine ⟨?_, ?_, ?_, ?_, ?_, ?_, ?_, ?_, ?_, ?_, ?_, ?_, ?_, ?_, ?_, ?_⟩ <;> omega

/-- C12: for every pattern of 32 bytes, decoding it as a `pc98part` and encoding
the result gives the pattern back, and so for every pattern of 16 bytes and
`mbrpart`; conversely the encoding of any `pc98part` or `mbrpart` value has
exactly 32 or 16 bytes and decodes to the value; the 16-bit cylinder fields sit
low byte first at the offsets 6, 10 and 14 and the 32-bit `lbastart` and
`lbasize` low byte first at the offsets 8 and 12. -/
theorem record_layout_roundtrip (b32 b16 : List Nat) (p : pc98part) (m : mbrpart)
    (h32 : b32.length = 32) (hb32 : ∀ x, x ∈ b32 → x < 256)
    (h16 : b16.length = 16) (hb16 : ∀ x, x ∈ b16 → x < 256)
    (hp : pc98part_ok p) (hm : mbrpart_ok m) :
    encode_pc98 (decode_pc98 b32) = b32
      ∧ encode_mbr (decode_mbr b16) = b16
      ∧ (encode_pc98 p).length = 32 ∧ decode_pc98 (encode_pc98 p) = p
      ∧ (encode_mbr m).length = 16 ∧ decode_mbr (encode_mbr m) = m
      ∧ ((encode_pc98 p).drop 6).take 2 = [p.ipl_cyl % 256, p.ipl_cyl / 256]
      ∧ ((encode_pc98 p).drop 10).take 2 = [p.scyl % 256, p.scyl / 256]
      ∧ ((encode_pc98 p).drop 14).take 2 = [p.ecyl % 256, p.ecyl / 256]
      ∧ ((encode_mbr m).drop 8).take 4
          = [m.lbastart % 256, m.lbastart / 256 % 256, m.lbastart / 65536 % 256,
             m.lbastart / 16777216]
      ∧ ((encode_mbr m).drop 12).take 4
          = [m.lbasize % 256, m.lbasize / 256 % 256, m.lbasize / 65536 % 256,
             m.lbasize / 16777216] := by
  refine ⟨encode_decode_pc98 b32 h32 hb32, encode_decode_mbr b16 h16 hb16,
    encode_pc98_length p, decode_encode_pc98 p hp, encode_mbr_length m,
    decode_encode_mbr m hm, ?_, ?_, ?_, ?_, ?_⟩
  · obtain ⟨_, _, _, _, _, _, h, _⟩ := hp
    simp only [encode_pc98, le16, List.cons_append, List.nil_append, List.drop_succ_cons,
      List.drop_zero, List.take_succ_cons, List.take_zero, List.cons.injEq, true_and, and_true]
    omega
  · obtain ⟨_, _, _, _, _, _, _, _, _, h, _⟩ := hp
    simp only [encode_pc98, le16, List.cons_append, List.nil_append, List.drop_succ_cons,
      List.drop_zero, List.take_succ_cons, List.take_zero, List.cons.injEq, true_and, and_true]
    omega
  · obtain ⟨_, _, _, _, _, _, _, _, _, _, _, _, h, _⟩ := hp
    simp only [encode_pc98, le16, List.cons_append, List.nil_append, List.drop_succ_cons,
      List.drop_zero, List.take_succ_cons, List.take_zero, List.cons.injEq, true_and, and_true]
    omega
  · obtain ⟨_, _, _, _, _, _, _, _, h, _⟩ := hm
    simp only [encode_mbr, le32, List.cons_append, List.nil_append, List.drop_succ_cons,
      List.drop_zero, List.take_succ_cons, List.take_zero, List.cons.injEq, true_and, and_true]
    omega
  · obtain ⟨_, _, _, _, _, _, _, _, _, h⟩ := hm
    simp only [encode_mbr, le32, List.cons_append, List.nil_append, List.drop_succ_cons,
      List.drop_zero, List.take_succ_cons, List.take_zero, List.cons.injEq, true_and, and_true]
    omega

theorem record_layout_roundtrip_witness :
    encode_pc98 (decode_pc98 bytes32_sample) = bytes32_sample
      ∧ encode_mbr (decode_mbr bytes16_sample) = bytes16_sample
      ∧ (encode_pc98 (parts_dressed 1)).length = 32
      ∧ decode_pc98 (encode_pc98 (parts_dressed 1)) = parts_dressed 1
      ∧ (encode_mbr (mbr_entry 0x0C 1496 2720)).length = 16
      ∧ decode_mbr (encode_mbr (mbr_entry 0x0C 1496 2720)) = mbr_entry 0x0C 1496 2720
      ∧ ((encode_pc98 (parts_dressed 1)).drop 6).take 2
          = [(parts_dressed 1).ipl_cyl % 256, (parts_dressed 1).ipl_cyl / 256]
      ∧ ((encode_pc98 (parts_dressed 1)).drop 10).take 2
          = [(parts_dressed 1).scyl % 256, (parts_dressed 1).scyl / 256]
      ∧ ((encode_pc98 (parts_dressed 1)).drop 14).take 2
          = [(parts_dressed 1).ecyl % 256, (parts_dressed 1).ecyl / 256]
      ∧ ((encode_mbr (mbr_entry 0x0C 1496 2720)).drop 8).take 4
          = [(mbr_entry 0x0C 1496 2720).lbastart % 256,
             (mbr_entry 0x0C 1496 2720).lbastart / 256 % 256,
             (mbr_entry 0x0C 1496 2720).lbastart / 65536 % 256,
             (mbr_entry 0x0C 1496 2720).lbastart / 16777216]
      ∧ ((encode_mbr (mbr_entry 0x0C 1496 2720)).drop 12).take 4
          = [(mbr_entry 0x0C 1496 2720).lbasize % 256,
             (mbr_entry 0x0C 1496 2720).lbasize / 256 % 256,
             (mbr_entry 0x0C 1496 2720).lbasize / 65536 % 256,
             (mbr_entry 0x0C 1496 2720).lbasize / 16777216] :=
  record_layout_roundtrip bytes32_sample bytes16_sample (parts_dressed 1)
    (mbr_entry 0x0C 1496 2720) (by decide) (by decide) (by decide) (by decide)
    (by decide) (by decide)

/-! ## Table reader: reads that find no complete record -/

/-- The bytes that `fread(&parts[i],...)` transfers are those of record `i` that
the image holds, when the stream is at the start of record `i` or, after a
short read, at or behind the end of the image. -/
theorem fread_part_any (image : List Nat) (i : Nat) (s : PartsState)
    (hd : s.drive.data = image)
    (hinv : s.drive.pos = 0x200 + 32 * i
      ∨ (image.length ≤ s.drive.pos ∧ image.length ≤ 0x200 + 32 * i)) :
    (fread_part i s).drive.data = image
      ∧ ((fread_part i s).drive.pos = 0x200 + 32 * (i + 1)
          ∨ (image.length ≤ (fread_part i s).drive.pos
              ∧ image.length ≤ 0x200 + 32 * (i + 1)))
      ∧ (fread_part i s).reads
          = s.reads ++ [(i, if (pc98_record image i).length = 32 then 1 else 0)]
      ∧ (fread_part i s).parts i
          = decode_pc98 (pc98_record image i
              ++ (encode_pc98 (s.parts i)).drop (pc98_record image i).length)
      ∧ ∀ j, j ≠ i → (fread_part i s).parts j = s.parts j := by
  have hrec : (s.drive.data.drop s.drive.pos).take 32 = pc98_record image i := by
    rcases hinv with h | ⟨h1, h2⟩
    · rw [hd, h, pc98_record]
    · rw [hd, pc98_record, List.drop_of_length_le h1, List.drop_of_length_le h2]
  have hlen : (pc98_record image i).length = min 32 (image.length - (0x200 + 32 * i)) := by
    rw [pc98_record, List.length_take, List.length_drop]
  simp only [fread_part, fread, hrec]
  refine ⟨hd, ?_, trivial, ?_, ?_⟩
  · rcases hinv with h | ⟨h1, h2⟩
    · rw [hlen, h]
      omega
    · rw [hlen]
      right
      omega
  · simp
  · intro j hj
    simp [hj]

/-- What the loop of `get_pc98_parts` reads: every read it adds is of an index
above `i`, returns 1 exactly when the image holds the whole record, and leaves
in its target the bytes of the record that the image holds followed by what the
memory held. -/
theorem get_pc98_parts_loop_any (heap : Nat → pc98part) (image : List Nat) :
    ∀ (fuel i : Nat) (s : PartsState), s.drive.data = image →
      (s.drive.pos = 0x200 + 32 * (i + 1)
        ∨ (image.length ≤ s.drive.pos ∧ image.length ≤ 0x200 + 32 * (i + 1))) →
      (∀ j, i < j → s.parts j = heap j) →
      (∀ j c, (j, c) ∈ (get_pc98_parts_loop fuel i s).reads →
          (j, c) ∈ s.reads
            ∨ (i < j ∧ c = (if (pc98_record image j).length = 32 then 1 else 0)
                ∧ (get_pc98_parts_loop fuel i s).parts j
                  = decode_pc98 (pc98_record image j
                      ++ (encode_pc98 (heap j)).drop (pc98_record image j).length)))
        ∧ ∀ j, j ≤ i → (get_pc98_parts_loop fuel i s).parts j = s.parts j := by
  intro fuel
  induction fuel with
  | zero =>
    intro i s _ _ _
    rw [get_pc98_parts_loop]
    exact ⟨fun j c h => Or.inl h, fun _ _ => rfl⟩
  | succ fuel ih =>
    intro i s hd hinv hu
    rw [get_pc98_parts_loop]
    by_cases hguard : i < PC98_MAX_PARTS ∧ (s.parts i).scyl ≠ 0
    · rw [if_pos hguard]
      obtain ⟨fd, fi, fr, fp, fo⟩ := fread_part_any image (i + 1) s hd hinv
      obtain ⟨ra, rb⟩ := ih (i + 1) (fread_part (i + 1) s) fd fi
        (fun j hj => by rw [fo j (by omega)]; exact hu j (by omega))
      refine ⟨?_, ?_⟩
      · intro j c hjc
        rcases ra j c hjc with h | ⟨h1, h2, h3⟩
        · rw [fr] at h
          rcases List.mem_append.mp h with h | h
          · exact Or.inl h
          · have he : (j, c) = (i + 1, if (pc98_record image (i + 1)).length = 32 then 1 else 0) := by
              simpa using h
            obtain ⟨hj, hc⟩ := Prod.mk.inj he
            subst hj
            refine Or.inr ⟨by omega, hc, ?_⟩
            rw [rb (i + 1) (le_refl _), fp, hu (i + 1) (by omega)]
        · exact Or.inr ⟨by omega, h2, h3⟩
      · intro j hj
        rw [rb j (by omega), fo j (by omega)]
    · rw [if_neg hguard]
      exact ⟨fun j c h => Or.inl h, fun _ _ => rfl⟩

/-- The loop of `get_pc98_parts` only adds reads. -/
theorem get_pc98_parts_loop_reads_ext :
    ∀ (fuel i : Nat) (s : PartsState),
      ∃ t, (get_pc98_parts_loop fuel i s).reads = s.reads ++ t := by
  intro fuel
  induction fuel with
  | zero =>
    intro i s
    exact ⟨[], by rw [get_pc98_parts_loop, List.append_nil]⟩
  | succ fuel ih =>
    intro i s
    rw [get_pc98_parts_loop]
    split
    · obtain ⟨t, ht⟩ := ih (i + 1) (fread_part (i + 1) s)
      refine ⟨[(i + 1, (fread (encode_pc98 (s.parts (i + 1))) 32 s.drive).1)] ++ t, ?_⟩
      rw [ht, ← List.append_assoc]
      rfl
    · exact ⟨[], by rw [List.append_nil]⟩

/-- Every read of `get_pc98_parts`, on any image: the read into `parts[j]`
returns 1 exactly when the image holds the whole of record `j`, and `parts[j]`
is left holding the bytes of record `j` that the image holds followed by what
the memory held before the call. The first read is always made. -/
theorem get_pc98_parts_reads (heap : Nat → pc98part) (image : List Nat) :
    (0, if (pc98_record image 0).length = 32 then 1 else 0)
        ∈ (get_pc98_parts heap { data := image, pos := 0 }).reads
      ∧ ∀ j c, (j, c) ∈ (get_pc98_parts heap { data := image, pos := 0 }).reads →
          c = (if (pc98_record image j).length = 32 then 1 else 0)
            ∧ (get_pc98_parts heap { data := image, pos := 0 }).parts j
              = decode_pc98 (pc98_record image j
                  ++ (encode_pc98 (heap j)).drop (pc98_record image j).length) := by
  obtain ⟨fd, fi, fr, fp, fo⟩ := fread_part_any image 0
    ⟨heap, fseek ⟨image, 0⟩ 0x200, []⟩ rfl (Or.inl rfl)
  obtain ⟨ra, rb⟩ := get_pc98_parts_loop_any heap image PC98_MAX_PARTS 0 _ fd fi
    (fun j hj => fo j (by omega))
  obtain ⟨t, ht⟩ := get_pc98_parts_loop_reads_ext PC98_MAX_PARTS 0
    (fread_part 0 ⟨heap, fseek ⟨image, 0⟩ 0x200, []⟩)
  refine ⟨?_, ?_⟩
  · show _ ∈ (get_pc98_parts_loop PC98_MAX_PARTS 0 _).reads
    rw [ht, fr]
    simp
  · intro j c hjc
    rcases ra j c hjc with h | ⟨_, h2, h3⟩
    · rw [fr] at h
      have he : (j, c) = (0, if (pc98_record image 0).length = 32 then 1 else 0) := by
        simpa using h
      obtain ⟨hj, hc⟩ := Prod.mk.inj he
      subst hj
      refine ⟨hc, ?_⟩
      show (get_pc98_parts_loop PC98_MAX_PARTS 0 _).parts 0 = _
      rw [rb 0 (le_refl 0), fp]
    · exact ⟨h2, h3⟩

/-- A read of `get_pc98_parts` into `parts[j]` on an image that ends before
the whole of record `j`: the `fread` returns 0 and `parts[j]` is left holding
the bytes of the image from the offset of record `j` on (fewer than 32,
possibly none) followed by what that memory held; the first read is made on
every image. -/
theorem get_pc98_parts_short_read (heap : Nat → pc98part) (image : List Nat) (j c : Nat)
    (hread : (j, c) ∈ (get_pc98_parts heap { data := image, pos := 0 }).reads)
    (hshort : image.length < 0x200 + 32 * (j + 1)) :
    c = 0
      ∧ (get_pc98_parts heap { data := image, pos := 0 }).parts j
          = decode_pc98 (image.drop (0x200 + 32 * j)
              ++ (encode_pc98 (heap j)).drop (image.length - (0x200 + 32 * j)))
      ∧ (image.drop (0x200 + 32 * j)).length < 32
      ∧ ∃ c0, (0, c0) ∈ (get_pc98_parts heap { data := image, pos := 0 }).reads := by
  obtain ⟨h0, hall⟩ := get_pc98_parts_reads heap image
  obtain ⟨hc, hp⟩ := hall j c hread
  have hlen : (image.drop (0x200 + 32 * j)).length = image.length - (0x200 + 32 * j) :=
    List.length_drop _ _
  have hrec : pc98_record image j = image.drop (0x200 + 32 * j) := by
    rw [pc98_record]
    exact List.take_of_length_le (by omega)
  rw [hrec, hlen] at hp
  rw [hrec, hlen] at hc
  refine ⟨?_, hp, by omega, _, h0⟩
  rw [hc, if_neg (by omega)]

set_option maxRecDepth 1000000 in
/-- C13 (the code at a failing input): on `image_short`, which ends at 0x200,
the one read of `get_pc98_parts` returns 0 and nothing reports it:
`suggest_mbr` returns 0, `write_mbr` writes the signature, prints
"Successfully written." and returns 0, and `read_ptable` prints "No PC-98
partition table." and returns 0. -/
theorem get_pc98_parts_no_report :
    (get_pc98_parts heap_zero { data := image_short, pos := 0 }).reads = [(0, 0)]
      ∧ suggest_mbr heap_zero image_short = (0, [Output.text "\nSuggested MBR:\n"])
      ∧ (write_mbr heap_zero dev_accept image_short).ret = 0
      ∧ (write_mbr heap_zero dev_accept image_short).writes
          = [{ pos := 0x1FE, src := [0xAA, 0x55], r := 1 }]
      ∧ (write_mbr heap_zero dev_accept image_short).stdout
          = [Output.text "\nSuggested MBR:\n", Output.text "Successfully written.\n"]
      ∧ (read_ptable heap_zero mbrpart_zero image_short 2).map (fun r => (r.1, r.2.stdout))
          = some (0, [Output.text "No PC-98 partition table.\n",
                      Output.text "\nCorresponding MBR on disk:\n"]) := by
  decide

/-! ## Table display: the scan of the legacy table -/

/-- At the end of the image with an `mp` of non-zero type, the second loop of
`read_ptable` does not end: no number of iterations reaches an `mp` of type
zero. -/
theorem read_ptable_mbr_loop_stuck :
    ∀ (fuel : Nat) (s : ScanState), s.mp.type % 256 ≠ 0 →
      s.drive.data.length ≤ s.drive.pos → read_ptable_mbr_loop fuel s = none := by
  intro fuel
  induction fuel with
  | zero =>
    intro s _ _
    rfl
  | succ fuel ih =>
    intro s ht hp
    have hne : s.mp.type ≠ 0 := by
      intro h
      rw [h] at ht
      exact ht rfl
    rw [read_ptable_mbr_loop, if_pos hne]
    have hgot : (s.drive.data.drop s.drive.pos).take 16 = [] := by
      rw [List.drop_of_length_le hp]
      rfl
    apply ih
    · simp only [read_ptable_mbr_body, fread_mbr, fread, hgot, List.nil_append,
        List.length_nil, List.drop_zero]
      simp only [decode_mbr, encode_mbr, rd8, List.cons_append, List.getD_cons_succ,
        List.getD_cons_zero]
      omega
    · simp only [read_ptable_mbr_body, fread_mbr, fread, hgot, List.length_nil, Nat.add_zero]
      exact hp

/-- The second loop of `read_ptable` does not end when some number `n` of
iterations, none of which finds an `mp` of type zero, brings it to the end of
the image. -/
theorem read_ptable_mbr_loop_none :
    ∀ (n fuel : Nat) (s : ScanState),
      (∀ k, k ≤ n → ((read_ptable_mbr_body^[k]) s).mp.type % 256 ≠ 0) →
      ((read_ptable_mbr_body^[n]) s).drive.data.length
        ≤ ((read_ptable_mbr_body^[n]) s).drive.pos →
      read_ptable_mbr_loop fuel s = none := by
  intro n
  induction n with
  | zero =>
    intro fuel s h hp
    exact read_ptable_mbr_loop_stuck fuel s (h 0 (le_refl 0)) hp
  | succ n ih =>
    intro fuel s h hp
    cases fuel with
    | zero => rfl
    | succ fuel =>
      have hne : s.mp.type ≠ 0 := by
        intro h0
        have := h 0 (Nat.zero_le _)
        simp only [Function.iterate_zero, id_eq] at this
        rw [h0] at this
        exact this rfl
      rw [read_ptable_mbr_loop, if_pos hne]
      apply ih fuel (read_ptable_mbr_body s)
      · intro k hk
        have := h (k + 1) (by omega)
        rwa [Function.iterate_succ_apply] at this
      · rwa [Function.iterate_succ_apply] at hp

set_option maxRecDepth 1000000 in
/-- C16 (the code at two failing inputs): on `image_full_mbr` the second loop of
`read_ptable` makes a fifth read, at offset 0x1FE, and takes the bytes there
(0x55, 0xAA, then the PC-98 table) as a legacy entry; on `image_sector`, which
ends at 0x200, `read_ptable` does not end within any number of iterations. -/
theorem read_ptable_scan_unbounded :
    (read_ptable heap_zero mbrpart_zero image_full_mbr 10).map
        (fun r => (r.2.scans, r.2.mp.flags, r.2.mp.shd))
      = some ([(0x1BE, 1), (0x1CE, 1), (0x1DE, 1), (0x1EE, 1), (0x1FE, 1)], 0x55, 0xAA)
    ∧ ∀ fuel, read_ptable heap_zero mbrpart_zero image_sector fuel = none := by
  refine ⟨by decide, ?_⟩
  intro fuel
  cases fuel with
  | zero => rfl
  | succ fuel =>
    unfold read_ptable
    dsimp only
    have h1 : read_ptable_pc98_loop
        (get_pc98_parts heap_zero { data := image_sector, pos := 0 }).parts (fuel + 1) 0 []
        = some (0, []) := by
      rw [read_ptable_pc98_loop, if_neg (by decide)]
    rw [h1]
    dsimp only
    rw [read_ptable_mbr_loop_none 5 (fuel + 1) _ (by decide) (by decide)]

/-! ## Table writer: what a successful run leaves unchanged -/

/-- A write inside the image replaces the bytes it covers and nothing else. -/
theorem pwrite_inside (d : List Nat) (p : Nat) (src : List Nat)
    (h : p + src.length ≤ d.length) :
    pwrite d p src = d.take p ++ src ++ d.drop (p + src.length) := by
  unfold pwrite
  split
  · next hs =>
    subst hs
    simp
  · have h0 : p - d.length = 0 := by omega
    rw [h0, List.replicate_zero, List.append_nil]

theorem pwrite_length (d : List Nat) (p : Nat) (src : List Nat)
    (h : p + src.length ≤ d.length) : (pwrite d p src).length = d.length := by
  rw [pwrite_inside d p src h]
  simp only [List.length_append, List.length_take, List.length_drop]
  omega

/-- A write inside the image leaves the bytes outside `[p, p + src.length)`. -/
theorem pwrite_frame (d : List Nat) (p : Nat) (src : List Nat)
    (h : p + src.length ≤ d.length) (o : Nat) (ho : o < p ∨ p + src.length ≤ o) :
    (pwrite d p src)[o]? = d[o]? := by
  rw [pwrite_inside d p src h]
  have htake : (d.take p).length = p := by
    rw [List.length_take]
    omega
  rcases ho with ho | ho
  · rw [List.append_assoc, List.getElem?_append_left (by omega), List.getElem?_take]
    simp [ho]
  · rw [List.getElem?_append_right (by simp only [List.length_append, htake]; omega),
      List.getElem?_drop]
    congr 1
    simp only [List.length_append, htake]
    omega

/-- A run of the partition-writing loop that ends without a failed write has
made some number `m` of writes, which amount to one write of `16 * m` bytes
where the stream stood. -/
theorem write_mbr_loop_true (dev : Nat → Nat) (mparts : List mbrpart) :
    ∀ (fuel i : Nat) (s : WriteState), i ≤ 4 →
      (write_mbr_loop dev mparts fuel i s).1 = true →
      ∃ (m : Nat) (B : List Nat), i + m ≤ 4 ∧ B.length = 16 * m
        ∧ (write_mbr_loop dev mparts fuel i s).2.drive
            = { data := pwrite s.drive.data s.drive.pos B, pos := s.drive.pos + 16 * m }
        ∧ (write_mbr_loop dev mparts fuel i s).2.writes.length = s.writes.length + m := by
  intro fuel
  induction fuel with
  | zero =>
    intro i s hi _
    exact ⟨0, [], by omega, rfl, by simp [write_mbr_loop, pwrite], rfl⟩
  | succ fuel ih =>
    intro i s hi ht
    rw [write_mbr_loop] at ht ⊢
    by_cases hguard : i < MBR_MAX_PARTS ∧ (mparts.getD i mbrpart_zero).type ≠ 0
    · rw [if_pos hguard] at ht ⊢
      by_cases hr : (fwrite_logged dev (encode_mbr (mparts.getD i mbrpart_zero)) s).1 ≠ 1
      · rw [if_pos hr] at ht
        simp at ht
      · rw [if_neg hr] at ht ⊢
        have hacc := (fwrite_logged_fst dev _ s).mp (not_not.mp hr)
        rw [fwrite_logged_ok dev _ s hacc] at ht ⊢
        have hi4 : i < 4 := by simpa [MBR_MAX_PARTS] using hguard.1
        obtain ⟨m, B, hm, hB, hd, hw⟩ := ih (i + 1) _ (by omega) ht
        refine ⟨m + 1, encode_mbr (mparts.getD i mbrpart_zero) ++ B, by omega, ?_, ?_, ?_⟩
        · rw [List.length_append, encode_mbr_length, hB]
          omega
        · rw [hd]
          simp only [encode_mbr_length, FILE.mk.injEq]
          refine ⟨?_, by omega⟩
          have hpp := pwrite_pwrite s.drive.data s.drive.pos
            (encode_mbr (mparts.getD i mbrpart_zero)) B
          rw [encode_mbr_length] at hpp
          exact hpp
        · rw [hw]
          simp only [List.length_append, List.length_singleton]
          omega
    · rw [if_neg hguard]
      exact ⟨0, [], by omega, rfl, by simp [pwrite], rfl⟩

/-- The image after a run of the writing part of `write_mbr` that returns 0:
`k` partition writes, amounting to one write of `16 * k` bytes at 0x1BE, and
the write of the two signature bytes at 0x1FE. -/
theorem write_mbr_table_success (dev : Nat → Nat) (mparts : List mbrpart)
    (image : List Nat) (out : List Output)
    (h : (write_mbr_table dev mparts image out).ret = 0) :
    ∃ (k : Nat) (B : List Nat), k ≤ 4 ∧ B.length = 16 * k
      ∧ (write_mbr_table dev mparts image out).writes.length = k + 1
      ∧ (write_mbr_table dev mparts image out).drive.data
          = pwrite (pwrite image 0x1BE B) 0x1FE (le16 0x55AA) := by
  unfold write_mbr_table at h ⊢
  dsimp only at h ⊢
  split_ifs at h ⊢ with h1 h2
  · have ht : (write_mbr_loop dev mparts MBR_MAX_PARTS 0
        { drive := fseek { data := image, pos := 0 } 0x1BE, writes := [] }).1 = true := by
      simpa using h1
    obtain ⟨m, B, hm, hB, hd, hw⟩ := write_mbr_loop_true dev mparts MBR_MAX_PARTS 0 _
      (by omega) ht
    have hacc := (fwrite_logged_fst dev (le16 0x55AA) _).mp (not_not.mp h2)
    rw [fwrite_logged_ok dev (le16 0x55AA) _ hacc]
    have hw' : (write_mbr_loop dev mparts MBR_MAX_PARTS 0
        { drive := fseek { data := image, pos := 0 } 0x1BE, writes := [] }).2.writes.length
        = m := by
      simpa using hw
    refine ⟨m, B, by omega, hB, ?_, ?_⟩
    · simp only [List.length_append, List.length_singleton, hw']
    · rw [hd]
      rfl

/-- C17: for every image of at least 0x200 bytes, a run of `write_mbr` that
returns 0 after `k` partition writes leaves the image at its length and leaves
every byte at an offset below 0x1BE, from `0x1BE + 16 * k` up to 0x1FE, or
from 0x200 on as it was. -/
theorem write_mbr_frame (heap : Nat → pc98part) (dev : Nat → Nat) (image : List Nat)
    (k : Nat) (hlen : 0x200 ≤ image.length)
    (hret : (write_mbr heap dev image).ret = 0)
    (hk : (write_mbr heap dev image).writes.length = k + 1) :
    k ≤ 4 ∧ (write_mbr heap dev image).drive.data.length = image.length
      ∧ ∀ o, (o < 0x1BE ∨ (0x1BE + 16 * k ≤ o ∧ o < 0x1FE) ∨ 0x200 ≤ o) →
          (write_mbr heap dev image).drive.data[o]? = image[o]? := by
  obtain ⟨k', B, hk4, hB, hw, hd⟩ := write_mbr_table_success dev _ image _ hret
  have hkk : k' = k := by
    have h1 : (write_mbr heap dev image).writes.length = k' + 1 := hw
    omega
  subst hkk
  have hd' : (write_mbr heap dev image).drive.data
      = pwrite (pwrite image 0x1BE B) 0x1FE (le16 0x55AA) := hd
  have hin1 : 0x1BE + B.length ≤ image.length := by omega
  have hl1 : (pwrite image 0x1BE B).length = image.length := pwrite_length _ _ _ hin1
  have hin2 : 0x1FE + (le16 0x55AA).length ≤ (pwrite image 0x1BE B).length := by
    rw [hl1]
    simp only [le16, List.length_cons, List.length_nil]
    omega
  refine ⟨hk4, ?_, ?_⟩
  · rw [hd', pwrite_length _ _ _ hin2, hl1]
  · intro o ho
    rw [hd', pwrite_frame _ _ _ hin2 o (by
        simp only [le16, List.length_cons, List.length_nil]
        omega),
      pwrite_frame _ _ _ hin1 o (by omega)]

set_option maxRecDepth 1000000 in
theorem write_mbr_frame_witness :
    3 ≤ 4 ∧ (write_mbr heap_zero dev_accept image_three).drive.data.length = image_three.length
      ∧ ∀ o, (o < 0x1BE ∨ (0x1BE + 16 * 3 ≤ o ∧ o < 0x1FE) ∨ 0x200 ≤ o) →
          (write_mbr heap_zero dev_accept image_three).drive.data[o]? = image_three[o]? :=
  write_mbr_frame heap_zero dev_accept image_three 3 (by decide) (by decide) (by decide)

/-! ## Table writer: how many entries are printed and written -/

/-- The type byte that `wildguess` returns is non-zero exactly for the six
mapped codes. -/
theorem wildguess_fst_ne_zero (t : Nat) :
    (wildguess t).1 ≠ 0 ↔ t ∈ [0x01, 0x11, 0x21, 0x31, 0x61, 0x62] := by
  unfold wildguess
  simp only [PC98_SYSS_PCUX, PC98_SYSS_N88, PC98_SYSS_FAT12, PC98_SYSS_FAT16A,
    PC98_SYSS_FAT16B, PC98_SYSS_NTFS, PC98_SYSS_BSD, PC98_SYSS_FAT32, PC98_SYSS_LINUX]
  split_ifs <;> simp_all
  omega

/-- The types of the slots of the suggested table: non-zero for the entries of
the longest run, from the first entry, of entries with a non-zero start
cylinder and a mapped code, and zero for the slot after it. -/
theorem get_mbr_suggestion_types (parts : Nat → pc98part) (m : Nat) (hm : m ≤ 4)
    (hpre : ∀ j, j < m → (parts j).scyl ≠ 0
      ∧ (parts j).sid &&& 0x7F ∈ [0x01, 0x11, 0x21, 0x31, 0x61, 0x62])
    (hstop : m < 4 → (parts m).scyl = 0
      ∨ (parts m).sid &&& 0x7F ∉ [0x01, 0x11, 0x21, 0x31, 0x61, 0x62]) :
    (∀ j, j < m → ((get_mbr_suggestion parts).1.getD j mbrpart_zero).type ≠ 0)
      ∧ (m < 4 → ((get_mbr_suggestion parts).1.getD m mbrpart_zero).type = 0) := by
  constructor
  · intro j hj
    rw [get_mbr_suggestion_slot parts j (by omega) (fun k hk => (hpre k (by omega)).1)]
    exact (wildguess_fst_ne_zero _).mpr (hpre j hj).2
  · intro hm4
    by_cases hz : (parts m).scyl = 0
    · have hc := get_mbr_suggestion_closed parts m hm (fun k hk => (hpre k hk).1) (fun _ => hz)
      rw [hc, List.getD_eq_getElem?_getD,
        List.getElem?_append_right (by simp), List.getElem?_replicate]
      simp only [List.length_map, List.length_range, Nat.sub_self]
      rw [if_pos (by omega)]
      rfl
    · rw [get_mbr_suggestion_slot parts m hm4 (fun k hk => by
        rcases Nat.lt_or_ge k m with h | h
        · exact (hpre k h).1
        · have : k = m := by omega
          subst this
          exact hz)]
      have hnot := (hstop hm4).resolve_left hz
      have := (wildguess_fst_ne_zero ((parts m).sid &&& 0x7F)).not.mpr hnot
      exact not_not.mp this

/-- The printing loop of `suggest_mbr` and `write_mbr`: from slot `i` it prints
the `m` slots up to the first one of type zero (or up to slot 4). -/
theorem print_mbr_loop_ok (mparts : List mbrpart) :
    ∀ (fuel i m : Nat) (out : List Output), i + m ≤ 4 → m ≤ fuel →
      (∀ j, j < m → (mparts.getD (i + j) mbrpart_zero).type ≠ 0) →
      (i + m < 4 → (mparts.getD (i + m) mbrpart_zero).type = 0) →
      print_mbr_loop mparts fuel i out
        = out ++ (List.range' 0 m).map (fun j =>
            Output.info_mbr (mparts.getD (i + j) mbrpart_zero) (i + j + 1)) := by
  intro fuel
  induction fuel with
  | zero =>
    intro i m out _ hm _ _
    have : m = 0 := by omega
    subst this
    simp [print_mbr_loop]
  | succ fuel ih =>
    intro i m out him hm hnz hz
    cases m with
    | zero =>
      have hguard : ¬ (i < MBR_MAX_PARTS ∧ (mparts.getD i mbrpart_zero).type ≠ 0) := by
        intro hg
        exact hg.2 (hz (by simpa [MBR_MAX_PARTS] using hg.1))
      rw [print_mbr_loop, if_neg hguard]
      simp
    | succ m =>
      have hguard : i < MBR_MAX_PARTS ∧ (mparts.getD i mbrpart_zero).type ≠ 0 :=
        ⟨by simp only [MBR_MAX_PARTS]; omega, by simpa using hnz 0 (by omega)⟩
      rw [print_mbr_loop, if_pos hguard]
      rw [ih (i + 1) m _ (by omega) (by omega)
        (fun j hj => by
          have := hnz (j + 1) (by omega)
          rwa [show i + (j + 1) = i + 1 + j by omega] at this)
        (fun h => by
          have := hz (by omega)
          rwa [show i + (m + 1) = i + 1 + m by omega] at this)]
      rw [List.range'_succ, List.map_cons, List.append_assoc, List.singleton_append]
      congr 2
      have hr : List.range' (0 + 1) m = (List.range' 0 m).map (fun j => 1 + j) := by
        rw [List.map_add_range']
      rw [hr, List.map_map]
      apply List.map_congr_left
      intro j _
      simp only [Function.comp]
      rw [show i + 1 + j = i + (1 + j) by omega]

/-- The memory that `get_pc98_parts` returns when the table of the image ends
with a record of start cylinder zero at an index `k ≤ 16`: the entries `0..k`
are the records `0..k` of the image. -/
theorem get_pc98_parts_parts_scan (heap : Nat → pc98part) (image : List Nat) (k : Nat)
    (hk : k ≤ 16) (hlen : 0x200 + 32 * (k + 1) ≤ image.length)
    (hnz : ∀ j, j < k → (decode_pc98 (pc98_record image j)).scyl ≠ 0)
    (hz : (decode_pc98 (pc98_record image k)).scyl = 0) :
    ∀ j, j ≤ k → (get_pc98_parts heap { data := image, pos := 0 }).parts j
      = decode_pc98 (pc98_record image j) := by
  obtain ⟨fd, _, fp, _⟩ := fread_part_full image 0
    ⟨heap, fseek ⟨image, 0⟩ 0x200, []⟩ rfl (by omega)
  have hp0 : ∀ j, j ≤ 0 →
      (fread_part 0 ⟨heap, fseek ⟨image, 0⟩ 0x200, []⟩).parts j
        = decode_pc98 (pc98_record image j) := by
    intro j hj
    have : j = 0 := by omega
    subst this
    exact fp
  exact (get_pc98_parts_loop_scan image k hk hlen hnz hz PC98_MAX_PARTS 0 _
    (Nat.zero_le k) (by simp only [PC98_MAX_PARTS]; omega) fd hp0).2.1

/-- What is printed and written for a table `parts`: with `m` the length of
the longest run, from the first of its first four entries, of entries with a
non-zero start cylinder and a mapped code, the printing loop prints the slots
`0..m-1` and, on a device that accepts the partition writes, the writing part
of `write_mbr` writes the slots `0..m-1` and then the signature. -/
theorem suggestion_count (parts : Nat → pc98part) (dev : Nat → Nat) (image : List Nat)
    (out : List Output) (m : Nat) (hm : m ≤ 4)
    (hpre : ∀ j, j < m → (parts j).scyl ≠ 0
      ∧ (parts j).sid &&& 0x7F ∈ [0x01, 0x11, 0x21, 0x31, 0x61, 0x62])
    (hstop : m < 4 → (parts m).scyl = 0
      ∨ (parts m).sid &&& 0x7F ∉ [0x01, 0x11, 0x21, 0x31, 0x61, 0x62])
    (hdev : ∀ j, j < m → 16 ≤ dev j) :
    print_mbr_loop (get_mbr_suggestion parts).1 MBR_MAX_PARTS 0 out
        = out ++ (List.range m).map (fun j =>
            Output.info_mbr ((get_mbr_suggestion parts).1.getD j mbrpart_zero) (j + 1))
      ∧ (∃ t, (write_mbr_table dev (get_mbr_suggestion parts).1 image out).stdout
          = out ++ [Output.text t])
      ∧ (∃ r, (write_mbr_table dev (get_mbr_suggestion parts).1 image out).writes
          = (List.range m).map (fun j =>
              ({ pos := 0x1BE + 16 * j,
                 src := encode_mbr ((get_mbr_suggestion parts).1.getD j mbrpart_zero),
                 r := 1 } : WriteEvent))
            ++ [{ pos := 0x1FE, src := le16 0x55AA, r := r }]) := by
  obtain ⟨hty, htz⟩ := get_mbr_suggestion_types parts m hm hpre hstop
  have hloop := write_mbr_loop_ok dev (get_mbr_suggestion parts).1 MBR_MAX_PARTS 0 m
    { drive := fseek { data := image, pos := 0 } 0x1BE, writes := [] } (by omega)
    (by simp only [MBR_MAX_PARTS]; omega)
    (fun j hj => by simpa using hty j hj) (fun h => by simpa using htz (by omega))
    (fun j hj => by simpa using hdev j hj)
  refine ⟨?_, ?_, ?_⟩
  · rw [print_mbr_loop_ok _ MBR_MAX_PARTS 0 m out (by omega)
      (by simp only [MBR_MAX_PARTS]; omega)
      (fun j hj => by simpa using hty j hj) (fun h => by simpa using htz (by omega))]
    simp only [Nat.zero_add, ← List.range_eq_range']
  · simp only [write_mbr_table]
    split_ifs
    · exact ⟨_, rfl⟩
    · exact ⟨_, rfl⟩
    · exact ⟨_, rfl⟩
  · simp only [write_mbr_table, hloop]
    simp only [Bool.true_eq_false, if_false, fwrite_logged_writes, fseek, List.nil_append,
      Nat.zero_add, ← List.range_eq_range']
    split_ifs
    · exact ⟨_, rfl⟩
    · exact ⟨_, rfl⟩

/-- C18: for every image whose PC-98 table ends with a record of start cylinder
zero at an index `k ≤ 16` (so that `get_pc98_parts` stays inside its 17
entries), with `m` the length of the longest run, from the first of the first
four records, of records with a non-zero start cylinder and a system-id whose
low 7 bits are one of 0x01, 0x11, 0x21, 0x31, 0x61, 0x62: `suggest_mbr` prints
exactly the slots `0..m-1`, `write_mbr` prints the same and one closing
message, and on a device that accepts the partition writes `write_mbr` writes
exactly the slots `0..m-1` at `0x1BE + 16 * j` and then the signature. -/
theorem write_mbr_count (heap : Nat → pc98part) (dev : Nat → Nat) (image : List Nat)
    (parts : Nat → pc98part) (k m : Nat)
    (hparts : (get_pc98_parts heap { data := image, pos := 0 }).parts = parts)
    (hk : k ≤ 16) (hlen : 0x200 + 32 * (k + 1) ≤ image.length)
    (hnz : ∀ j, j < k → (decode_pc98 (pc98_record image j)).scyl ≠ 0)
    (hz : (decode_pc98 (pc98_record image k)).scyl = 0)
    (hm : m ≤ 4)
    (hpre : ∀ j, j < m → (decode_pc98 (pc98_record image j)).scyl ≠ 0
      ∧ (decode_pc98 (pc98_record image j)).sid &&& 0x7F
          ∈ [0x01, 0x11, 0x21, 0x31, 0x61, 0x62])
    (hstop : m < 4 → (decode_pc98 (pc98_record image m)).scyl = 0
      ∨ (decode_pc98 (pc98_record image m)).sid &&& 0x7F
          ∉ [0x01, 0x11, 0x21, 0x31, 0x61, 0x62])
    (hdev : ∀ j, j < m → 16 ≤ dev j) :
    (∀ j c, (j, c) ∈ (get_pc98_parts heap { data := image, pos := 0 }).reads
        → j < PC98_MAX_PARTS)
      ∧ (∀ j, j ≤ m → parts j = decode_pc98 (pc98_record image j))
      ∧ (suggest_mbr heap image).2
        = [Output.text "\nSuggested MBR:\n"] ++ (get_mbr_suggestion parts).2
          ++ (List.range m).map (fun j =>
              Output.info_mbr ((get_mbr_suggestion parts).1.getD j mbrpart_zero) (j + 1))
      ∧ (∃ t, (write_mbr heap dev image).stdout
          = (suggest_mbr heap image).2 ++ [Output.text t])
      ∧ (∃ r, (write_mbr heap dev image).writes
          = (List.range m).map (fun j =>
              ({ pos := 0x1BE + 16 * j,
                 src := encode_mbr ((get_mbr_suggestion parts).1.getD j mbrpart_zero),
                 r := 1 } : WriteEvent))
            ++ [{ pos := 0x1FE, src := le16 0x55AA, r := r }]) := by
  have hmk : m ≤ k := by
    by_contra hc
    exact (hpre k (by omega)).1 hz
  have hrec : ∀ j, j ≤ k → parts j = decode_pc98 (pc98_record image j) := by
    intro j hj
    rw [← hparts]
    exact get_pc98_parts_parts_scan heap image k hk hlen hnz hz j hj
  have hpre' : ∀ j, j < m → (parts j).scyl ≠ 0
      ∧ (parts j).sid &&& 0x7F ∈ [0x01, 0x11, 0x21, 0x31, 0x61, 0x62] := by
    intro j hj
    rw [hrec j (by omega)]
    exact hpre j hj
  have hstop' : m < 4 → (parts m).scyl = 0
      ∨ (parts m).sid &&& 0x7F ∉ [0x01, 0x11, 0x21, 0x31, 0x61, 0x62] := by
    intro h
    rw [hrec m hmk]
    exact hstop h
  obtain ⟨c1, _, _⟩ := suggestion_count parts dev image
    ([Output.text "\nSuggested MBR:\n"] ++ (get_mbr_suggestion parts).2) m hm hpre' hstop' hdev
  obtain ⟨_, c2, c3⟩ := suggestion_count parts dev image
    (print_mbr_loop (get_mbr_suggestion parts).1 MBR_MAX_PARTS 0
      ([Output.text "\nSuggested MBR:\n"] ++ (get_mbr_suggestion parts).2)) m hm hpre' hstop' hdev
  have hsug : (suggest_mbr heap image).2
      = print_mbr_loop (get_mbr_suggestion parts).1 MBR_MAX_PARTS 0
          ([Output.text "\nSuggested MBR:\n"] ++ (get_mbr_suggestion parts).2) := by
    simp only [suggest_mbr, hparts]
  have hwr : write_mbr heap dev image
      = write_mbr_table dev (get_mbr_suggestion parts).1 image
          (print_mbr_loop (get_mbr_suggestion parts).1 MBR_MAX_PARTS 0
            ([Output.text "\nSuggested MBR:\n"] ++ (get_mbr_suggestion parts).2)) := by
    simp only [write_mbr, hparts]
  have hreads := (get_pc98_parts_loop_scan image k hk hlen hnz hz PC98_MAX_PARTS 0
    (fread_part 0 ⟨heap, fseek ⟨image, 0⟩ 0x200, []⟩)
    (Nat.zero_le k) (by simp only [PC98_MAX_PARTS]; omega)
    (fread_part_full image 0 ⟨heap, fseek ⟨image, 0⟩ 0x200, []⟩ rfl (by omega)).1
    (fun j hj => by
      have : j = 0 := by omega
      subst this
      exact (fread_part_full image 0 ⟨heap, fseek ⟨image, 0⟩ 0x200, []⟩ rfl
        (by omega)).2.2.1)).1
  refine ⟨?_, fun j hj => hrec j (by omega), ?_, ?_, ?_⟩
  · intro j c hjc
    have hjc' : (j, c) ∈ (get_pc98_parts_loop PC98_MAX_PARTS 0
        (fread_part 0 ⟨heap, fseek ⟨image, 0⟩ 0x200, []⟩)).reads := hjc
    rw [hreads, (fread_part_full image 0 ⟨heap, fseek ⟨image, 0⟩ 0x200, []⟩ rfl
      (by omega)).2.1] at hjc'
    simp only [List.nil_append, List.mem_append, List.mem_singleton, List.mem_map,
      Prod.mk.injEq] at hjc'
    simp only [PC98_MAX_PARTS]
    rcases hjc' with ⟨h, _⟩ | ⟨a, ha, h, _⟩
    · omega
    · have := List.mem_range'_1.mp ha
      omega
  · rw [hsug]
    exact c1
  · rw [hwr, hsug]
    exact c2
  · rw [hwr]
    exact c3

set_option maxRecDepth 1000000 in
theorem write_mbr_count_witness :
    (∀ j c, (j, c) ∈ (get_pc98_parts heap_zero { data := image_mixed, pos := 0 }).reads
        → j < PC98_MAX_PARTS)
      ∧ (∀ j, j ≤ 1 → (get_pc98_parts heap_zero { data := image_mixed, pos := 0 }).parts j
          = decode_pc98 (pc98_record image_mixed j))
      ∧ (suggest_mbr heap_zero image_mixed).2
        = [Output.text "\nSuggested MBR:\n"]
          ++ (get_mbr_suggestion
              (get_pc98_parts heap_zero { data := image_mixed, pos := 0 }).parts).2
          ++ (List.range 1).map (fun j =>
              Output.info_mbr ((get_mbr_suggestion
                (get_pc98_parts heap_zero { data := image_mixed, pos := 0 }).parts).1.getD
                  j mbrpart_zero) (j + 1))
      ∧ (∃ t, (write_mbr heap_zero dev_accept image_mixed).stdout
          = (suggest_mbr heap_zero image_mixed).2 ++ [Output.text t])
      ∧ (∃ r, (write_mbr heap_zero dev_accept image_mixed).writes
          = (List.range 1).map (fun j =>
              ({ pos := 0x1BE + 16 * j,
                 src := encode_mbr ((get_mbr_suggestion
                   (get_pc98_parts heap_zero { data := image_mixed, pos := 0 }).parts).1.getD
                     j mbrpart_zero),
                 r := 1 } : WriteEvent))
            ++ [{ pos := 0x1FE, src := le16 0x55AA, r := r }]) :=
  write_mbr_count heap_zero dev_accept image_mixed
    (get_pc98_parts heap_zero { data := image_mixed, pos := 0 }).parts 3 1 rfl
    (by decide) (by decide) (by decide) (by decide) (by decide) (by decide) (by decide)
    (by decide)

end Tombr
